import Mathlib

/-!
# osr: map-matching lookup (include/osr/lookup.h)

A shallow embedding of `till_the_end`, `node_candidate`, `way_candidate`,
`lookup::find_next_node`, `lookup::get_way_candidates` and the templated
`lookup::match`, followed by theorems about them.

Conventions of the embedding.

* `double` values are elements of an arbitrary linearly ordered commutative
  ring `R` (exact arithmetic; the integers, the rationals and the reals are
  instances).  The only operations the header applies to doubles are `+`,
  `*= 2U`, `std::pow(_, 2)`, `<` and `std::sqrt`; the last one is a parameter.
  Rounding, overflow and underflow of `+`, `*=` and `std::pow` are not part of
  the embedding: a theorem that needs a fact which they can break has it as a
  hypothesis (so `0 < r ^ 2` in `on_segment_match_amended`), and the rounding
  of `std::sqrt` is met in `binary64_sqrt`.
* Everything the header uses but does not define (types.h, geo, utl, cista, the
  way store and the R-tree) is a parameter: the structures `externals`,
  `profile`, `ways` and `lookup`.
* `cost_t` is an unsigned machine integer: `cost_ += x` is addition modulo
  `2 ^ cost_bits`.
* A result of type `Option` is `none` when the C++ program has no defined
  result: an element access outside the collection, or `back()` on an empty
  vector.  Loops are driven by a step budget that is always large enough
  (see `till_the_end_forward_eq_walk`, `till_the_end_backward_eq_walk`,
  `match_loop_fuel`).
* The backward loop of `till_the_end` counts in a 32-bit `j` against a
  `std::size_t start`.  `till_the_end_backward_u32` and `till_the_end_u32` keep
  the 32 bits; `till_the_end_backward` and `till_the_end`, which
  `find_next_node` is built on, count in the natural numbers.  The two agree
  while `start + 1 < 2 ^ 32` (`till_the_end_backward_u32_eq`,
  `till_the_end_u32_eq`), which covers every way of fewer than `2 ^ 32`
  vertices; from `start = 2 ^ 32 - 1` on the 32-bit loop does not end
  (`till_the_end_backward_u32_never_returns`).
-/

namespace osr

/-! ## Types -/

/-- The two values of `osr::direction`. -/
inductive direction
  | kForward
  | kBackward
deriving DecidableEq, Repr

/-- The two values of `utl::cflow`. -/
inductive cflow
  | kContinue
  | kBreak
deriving DecidableEq, Repr

abbrev node_idx_t := Nat
abbrev way_idx_t := Nat
abbrev osm_node_idx_t := Nat
abbrev level_t := Nat
abbrev cost_t := Nat
abbrev distance_t := Nat

/-- The per-way travel properties (`way_properties`), only ever handed to the
cost profile. -/
abbrev way_properties := Nat

/-- A coordinate pair `geo::latlng`. -/
structure latlng (R : Type) where
  lat_ : R
  lng_ : R
deriving DecidableEq, Repr

/-- A bounding box `geo::box`. -/
structure box (R : Type) where
  min_ : latlng R
  max_ : latlng R
deriving DecidableEq, Repr

/-- The query `location`: a position and a level. -/
structure location (R : Type) where
  pos_ : latlng R
  lvl_ : level_t
deriving DecidableEq, Repr

/-- The struct `node_candidate`. -/
structure node_candidate (R : Type) where
  lvl_ : level_t
  way_dir_ : direction
  node_ : node_idx_t
  dist_to_node_ : R
  cost_ : cost_t
  offroad_cost_ : cost_t
  path_ : List (latlng R)
deriving DecidableEq, Repr

/-- The struct `way_candidate`. -/
structure way_candidate (R : Type) where
  dist_to_way_ : R
  best_ : latlng R
  segment_idx_ : Nat
  query_ : location R
  way_ : way_idx_t
  left_ : node_candidate R
  right_ : node_candidate R
deriving DecidableEq, Repr

abbrev match_t (R : Type) := List (way_candidate R)

/-- Declarations used by lookup.h that live in other headers (osr/types.h, geo,
the C++ library): constants, the direction helpers, the numeric conversions
and the geometry routines. -/
structure externals (R : Type) where
  /-- The constant `kNoLevel`. -/
  kNoLevel : level_t
  /-- The sentinel `node_idx_t::invalid()`. -/
  node_invalid : node_idx_t
  /-- The sentinel `way_idx_t::invalid()`. -/
  way_invalid : way_idx_t
  /-- The constant `kInfeasible`. -/
  kInfeasible : cost_t
  /-- The width of `cost_t` in bits. -/
  cost_bits : Nat
  /-- The helper `opposite(dir)`. -/
  opposite : direction → direction
  /-- The helper `flip(search_dir, dir)`. -/
  flip : direction → direction → direction
  /-- The conversion `static_cast<distance_t>(double)`. -/
  to_distance_t : R → distance_t
  /-- The function `std::sqrt`. -/
  sqrt : R → R
  /-- The function `geo::approx_distance_lng_degrees`. -/
  approx_distance_lng_degrees : latlng R → R
  /-- The function `geo::approx_squared_distance(a, b, lng_degrees)`. -/
  approx_squared_distance : latlng R → latlng R → R → R
  /-- The function `geo::approx_squared_distance_to_polyline`: squared distance,
  closest point, and index of the closest sub-segment. -/
  approx_squared_distance_to_polyline : latlng R → List (latlng R) → R → R × latlng R × Nat
  /-- The constructor `geo::box{center, dist}`. -/
  box_around : latlng R → R → box R

/-- The template parameter `Profile`: its static member `way_cost`. -/
structure profile where
  way_cost : way_properties → direction → distance_t → cost_t

/-- The parts of `ways` read by lookup.h. -/
structure ways (R : Type) where
  way_polylines_ : way_idx_t → List (latlng R)
  way_osm_nodes_ : way_idx_t → List osm_node_idx_t
  way_properties_ : way_idx_t → way_properties
  find_node_idx : osm_node_idx_t → Option node_idx_t

/-- The struct `lookup`: the way store `ways_` and the R-tree `rtree_`, whose
`search` hands the ways of all entries meeting the box to its callback, in
some order. -/
structure lookup (R : Type) where
  ways_ : ways R
  rtree_search : box R → List way_idx_t

/-- The loop state of the templated `match`: the three variables of the
function, and a log of the radii handed to `get_way_candidates` so far. -/
structure match_state (R : Type) where
  way_candidates : match_t R
  i : Nat
  max_match_distance : R
  calls : List R
deriving DecidableEq, Repr

/-! ## till_the_end -/

/-- The loop `for (auto i = start; i != c.size(); ++i)` of `till_the_end`;
the first argument bounds the number of loop tests. -/
def till_the_end_forward {α σ : Type} (coll : List α) (fn : σ → α → Option (cflow × σ)) :
    Nat → Nat → σ → Option σ
  | 0, _, _ => none
  | fuel + 1, i, s =>
    if i = coll.length then some s
    else
      match coll[i]? with
      | none => none
      | some x =>
        match fn s x with
        | none => none
        | some (cflow.kBreak, s') => some s'
        | some (cflow.kContinue, s') => till_the_end_forward coll fn fuel (i + 1) s'

/-- The loop `for (auto j = 0U; j <= start; ++j) { auto i = start - j; ... }` of
`till_the_end` with the counter `j` a natural number; the first argument bounds
the number of loop tests.  This is the loop of the header while
`start + 1 < 2 ^ 32`, where the 32-bit counter does not wrap
(`till_the_end_backward_u32_eq`); the loop with the counter as the header
declares it is `till_the_end_backward_u32`. -/
def till_the_end_backward {α σ : Type} (coll : List α) (fn : σ → α → Option (cflow × σ))
    (start : Nat) : Nat → Nat → σ → Option σ
  | 0, _, _ => none
  | fuel + 1, j, s =>
    if j ≤ start then
      let i := start - j
      match coll[i]? with
      | none => none
      | some x =>
        match fn s x with
        | none => none
        | some (cflow.kBreak, s') => some s'
        | some (cflow.kContinue, s') => till_the_end_backward coll fn start fuel (j + 1) s'
    else some s

/-- The function template `till_the_end(start, c, dir, fn)`, the collection
`c` being called `coll`, with the backward counter a natural number (the
function of the header while `start + 1 < 2 ^ 32`, see `till_the_end_u32_eq`).
The callback updates the state `σ` it captured by reference. -/
def till_the_end {α σ : Type} (start : Nat) (coll : List α) (dir : direction)
    (fn : σ → α → Option (cflow × σ)) (s : σ) : Option σ :=
  if dir = direction.kForward then
    till_the_end_forward coll fn (coll.length + 1) start s
  else
    till_the_end_backward coll fn start (start + 2) 0 s

/-- The loop `for (auto j = 0U; j <= start; ++j) { auto i = start - j; ... }` of
`till_the_end` with the counter `j` kept in 32 bits, as `0U` declares it: `++j`
on `2 ^ 32 - 1` gives 0, and `j` is widened to the type of `start` in
`j <= start` and in `start - j`.  The first argument bounds the number of loop
tests. -/
def till_the_end_backward_u32 {α σ : Type} (coll : List α) (fn : σ → α → Option (cflow × σ))
    (start : Nat) : Nat → Nat → σ → Option σ
  | 0, _, _ => none
  | fuel + 1, j, s =>
    if j ≤ start then
      let i := start - j
      match coll[i]? with
      | none => none
      | some x =>
        match fn s x with
        | none => none
        | some (cflow.kBreak, s') => some s'
        | some (cflow.kContinue, s') =>
          till_the_end_backward_u32 coll fn start fuel ((j + 1) % 2 ^ 32) s'
    else some s

/-- The function template `till_the_end(start, c, dir, fn)` with the 32-bit
counter of the backward loop. -/
def till_the_end_u32 {α σ : Type} (start : Nat) (coll : List α) (dir : direction)
    (fn : σ → α → Option (cflow × σ)) (s : σ) : Option σ :=
  if dir = direction.kForward then
    till_the_end_forward coll fn (coll.length + 1) start s
  else
    till_the_end_backward_u32 coll fn start (start + 2) 0 s

/-! ## Candidates -/

/-- The value `node_candidate{}` given by the default member initialisers. -/
def node_candidate.init {R : Type} [LinearOrderedCommRing R] (E : externals R) :
    node_candidate R :=
  { lvl_ := E.kNoLevel
    way_dir_ := direction.kForward
    node_ := E.node_invalid
    dist_to_node_ := 0
    cost_ := 0
    offroad_cost_ := 0
    path_ := [] }

/-- The member `node_candidate::valid`. -/
def node_candidate.valid {R : Type} (E : externals R) (c : node_candidate R) : Bool :=
  c.node_ != E.node_invalid

/-- The comparison `operator<` of `way_candidate`. -/
def way_candidate.lt {R : Type} [LinearOrderedCommRing R] (a b : way_candidate R) : Bool :=
  a.dist_to_way_ < b.dist_to_way_

/-- The call `utl::sort(way_candidates)`: sorting with `operator<`, that is, `a`
may stand before `b` when `b < a` is false. -/
def sort {R : Type} [LinearOrderedCommRing R] (l : match_t R) : match_t R :=
  l.insertionSort (fun a b => way_candidate.lt b a = false)

/-- The test `blocked == nullptr || !blocked->test(n)`. -/
def not_blocked (blocked : Option (node_idx_t → Bool)) (n : node_idx_t) : Bool :=
  match blocked with
  | none => true
  | some b => !b n

/-! ## lookup -/

section
variable {R : Type} [LinearOrderedCommRing R]

/-- The callback handed to `till_the_end` by `find_next_node`, acting on the
candidate `c` it captured by reference. -/
def lookup.find_next_node_visit (self : lookup R) (E : externals R) (P : profile)
    (way_prop : way_properties) (search_dir edge_dir : direction)
    (blocked : Option (node_idx_t → Bool)) (approx_distance_lng_degrees : R)
    (c : node_candidate R) (x : latlng R × osm_node_idx_t) :
    Option (cflow × node_candidate R) :=
  match c.path_.getLast? with
  | none => none
  | some back =>
    let segment_dist := E.sqrt (E.approx_squared_distance back x.1 approx_distance_lng_degrees)
    let c1 : node_candidate R :=
      { c with
        dist_to_node_ := c.dist_to_node_ + segment_dist
        cost_ := (c.cost_ + P.way_cost way_prop (E.flip search_dir edge_dir)
                  (E.to_distance_t segment_dist)) % 2 ^ E.cost_bits
        path_ := c.path_ ++ [x.1] }
    match self.ways_.find_node_idx x.2 with
    | some way_node =>
      if not_blocked blocked way_node then
        some (cflow.kBreak, { c1 with node_ := way_node })
      else some (cflow.kContinue, c1)
    | none => some (cflow.kContinue, c1)

/-- The member `lookup::find_next_node<Profile>`. -/
def lookup.find_next_node (self : lookup R) (E : externals R) (P : profile)
    (wc : way_candidate R) (_query : location R) (dir : direction) (lvl : level_t)
    (reverse : Bool) (search_dir : direction) (blocked : Option (node_idx_t → Bool))
    (approx_distance_lng_degrees : R) : Option (node_candidate R) :=
  let way_prop := self.ways_.way_properties_ wc.way_
  let edge_dir := if reverse then E.opposite dir else dir
  let offroad_cost :=
    P.way_cost way_prop (E.flip search_dir edge_dir) (E.to_distance_t wc.dist_to_way_)
  if offroad_cost = E.kInfeasible then some (node_candidate.init E)
  else
    let c : node_candidate R :=
      { lvl_ := lvl
        way_dir_ := dir
        node_ := E.node_invalid
        dist_to_node_ := wc.dist_to_way_
        cost_ := offroad_cost
        offroad_cost_ := offroad_cost
        path_ := [wc.best_] }
    let polyline := self.ways_.way_polylines_ wc.way_
    let osm_nodes := self.ways_.way_osm_nodes_ wc.way_
    match till_the_end (wc.segment_idx_ + (if dir = direction.kForward then 1 else 0))
        (List.zip polyline osm_nodes) dir
        (self.find_next_node_visit E P way_prop search_dir edge_dir blocked
          approx_distance_lng_degrees) c with
    | none => none
    | some c1 => some (if reverse then { c1 with path_ := c1.path_.reverse } else c1)

/-- The member `lookup::find`: the callback is run on every way the R-tree
search delivers. -/
def lookup.find {σ : Type} (self : lookup R) (b : box R) (fn : σ → way_idx_t → Option σ)
    (s : σ) : Option σ :=
  (self.rtree_search b).foldlM fn s

/-- The callback handed to `find` by `get_way_candidates`, acting on the vector
`way_candidates` it captured by reference. -/
def lookup.get_way_candidates_visit (self : lookup R) (E : externals R) (P : profile)
    (query : location R) (reverse : Bool) (search_dir : direction)
    (blocked : Option (node_idx_t → Bool)) (approx_distance_lng_degrees squared_max_dist : R)
    (way_candidates : match_t R) (way : way_idx_t) : Option (match_t R) :=
  let p := E.approx_squared_distance_to_polyline query.pos_ (self.ways_.way_polylines_ way)
    approx_distance_lng_degrees
  let wc : way_candidate R :=
    { dist_to_way_ := p.1
      best_ := p.2.1
      segment_idx_ := p.2.2
      query_ := { pos_ := { lat_ := 0, lng_ := 0 }, lvl_ := E.kNoLevel }
      way_ := E.way_invalid
      left_ := node_candidate.init E
      right_ := node_candidate.init E }
  if wc.dist_to_way_ < squared_max_dist then
    let wc1 : way_candidate R :=
      { wc with dist_to_way_ := E.sqrt wc.dist_to_way_, query_ := query, way_ := way }
    match self.find_next_node E P wc1 query direction.kBackward query.lvl_ reverse search_dir
        blocked approx_distance_lng_degrees with
    | none => none
    | some l =>
      let wc2 : way_candidate R := { wc1 with left_ := l }
      match self.find_next_node E P wc2 query direction.kForward query.lvl_ reverse search_dir
          blocked approx_distance_lng_degrees with
      | none => none
      | some r =>
        let wc3 : way_candidate R := { wc2 with right_ := r }
        if wc3.left_.valid E || wc3.right_.valid E then some (way_candidates ++ [wc3])
        else some way_candidates
  else some way_candidates

/-- The member `lookup::get_way_candidates<Profile>`. -/
def lookup.get_way_candidates (self : lookup R) (E : externals R) (P : profile)
    (query : location R) (reverse : Bool) (search_dir : direction) (max_match_distance : R)
    (blocked : Option (node_idx_t → Bool)) : Option (match_t R) :=
  let approx_distance_lng_degrees := E.approx_distance_lng_degrees query.pos_
  let squared_max_dist := max_match_distance ^ 2
  match self.find (E.box_around query.pos_ max_match_distance)
      (self.get_way_candidates_visit E P query reverse search_dir blocked
        approx_distance_lng_degrees squared_max_dist) [] with
  | none => none
  | some way_candidates => some (sort way_candidates)

/-- The loop `while (way_candidates.empty() && i++ < 4U) { ... }` of the
templated `match`; the first argument bounds the number of loop tests. -/
def lookup.match_loop (self : lookup R) (E : externals R) (P : profile)
    (query : location R) (reverse : Bool) (search_dir : direction)
    (blocked : Option (node_idx_t → Bool)) : Nat → match_state R → Option (match_state R)
  | 0, _ => none
  | fuel + 1, s =>
    if s.way_candidates.isEmpty then
      if s.i < 4 then
        let d := s.max_match_distance * 2
        match self.get_way_candidates E P query reverse search_dir d blocked with
        | none => none
        | some wcs =>
          lookup.match_loop self E P query reverse search_dir blocked fuel
            { way_candidates := wcs, i := s.i + 1, max_match_distance := d,
              calls := s.calls ++ [d] }
      else some { s with i := s.i + 1 }
    else some s

/-- The templated member `lookup::match<Profile>`, returning the final values
of its local variables. -/
def lookup.match_run (self : lookup R) (E : externals R) (P : profile)
    (query : location R) (reverse : Bool) (search_dir : direction) (max_match_distance : R)
    (blocked : Option (node_idx_t → Bool)) : Option (match_state R) :=
  match self.get_way_candidates E P query reverse search_dir max_match_distance blocked with
  | none => none
  | some wcs =>
    lookup.match_loop self E P query reverse search_dir blocked 5
      { way_candidates := wcs, i := 0, max_match_distance := max_match_distance,
        calls := [max_match_distance] }

/-- The templated member `lookup::match<Profile>`: the returned vector. -/
def lookup.match_ (self : lookup R) (E : externals R) (P : profile)
    (query : location R) (reverse : Bool) (search_dir : direction) (max_match_distance : R)
    (blocked : Option (node_idx_t → Bool)) : Option (match_t R) :=
  (self.match_run E P query reverse search_dir max_match_distance blocked).map
    (fun s => s.way_candidates)

/-- The radii handed to `get_way_candidates` during one call of `match`, in
call order. -/
def lookup.match_calls (self : lookup R) (E : externals R) (P : profile)
    (query : location R) (reverse : Bool) (search_dir : direction) (max_match_distance : R)
    (blocked : Option (node_idx_t → Bool)) : Option (List R) :=
  (self.match_run E P query reverse search_dir max_match_distance blocked).map
    (fun s => s.calls)

end

/-! ## Notions used to state the properties -/

/-- Running a callback over a list of elements, in list order, until it breaks
or the list ends. -/
def walk {α σ : Type} (fn : σ → α → Option (cflow × σ)) : List α → σ → Option σ
  | [], s => some s
  | x :: xs, s =>
    match fn s x with
    | none => none
    | some (cflow.kBreak, s') => some s'
    | some (cflow.kContinue, s') => walk fn xs s'

/-- The elements of a collection in the order in which a walk from index
`start` in direction `dir` meets them: `start, start + 1, ...` up to the last
element, or `start, start - 1, ...` down to the first one. -/
def walk_order {α : Type} (start : Nat) (coll : List α) (dir : direction) : List α :=
  if dir = direction.kForward then coll.drop start else (coll.take (start + 1)).reverse

/-- Repeated addition in `cost_t`, that is, modulo `2 ^ bits`. -/
def cost_sum (bits : Nat) (c : cost_t) (xs : List cost_t) : cost_t :=
  xs.foldl (fun acc x => (acc + x) % 2 ^ bits) c

section
variable {R : Type} [LinearOrderedCommRing R]

/-- The graph node a polyline vertex stands for, if its external node is a node
of the graph and that node is not excluded. -/
def lookup.usable_node (self : lookup R) (blocked : Option (node_idx_t → Bool))
    (x : latlng R × osm_node_idx_t) : Option node_idx_t :=
  match self.ways_.find_node_idx x.2 with
  | some n => if not_blocked blocked n then some n else none
  | none => none

/-- The vertices of a list up to and including the first one with a usable
node (all of them if there is none). -/
def lookup.visited (self : lookup R) (blocked : Option (node_idx_t → Bool)) :
    List (latlng R × osm_node_idx_t) → List (latlng R × osm_node_idx_t)
  | [] => []
  | x :: xs =>
    match self.usable_node blocked x with
    | some _ => [x]
    | none => x :: lookup.visited self blocked xs

/-- The lengths of the hops between consecutive points of a path, as
`find_next_node` measures them. -/
def hop_lengths (E : externals R) (approx_distance_lng_degrees : R) : List (latlng R) → List R
  | a :: b :: rest =>
    E.sqrt (E.approx_squared_distance a b approx_distance_lng_degrees) ::
      hop_lengths E approx_distance_lng_degrees (b :: rest)
  | _ => []

/-- The profile costs of the hops between consecutive points of a path. -/
def hop_costs (E : externals R) (P : profile) (way_prop : way_properties)
    (eff_dir : direction) (approx_distance_lng_degrees : R) (path : List (latlng R)) :
    List cost_t :=
  (hop_lengths E approx_distance_lng_degrees path).map
    (fun d => P.way_cost way_prop eff_dir (E.to_distance_t d))

/-- The direction handed to the cost profile by `find_next_node`:
`flip(search_dir, reverse ? opposite(dir) : dir)`. -/
def effective_dir (E : externals R) (dir : direction) (reverse : Bool)
    (search_dir : direction) : direction :=
  E.flip search_dir (if reverse then E.opposite dir else dir)

/-- The cost of the initial hop computed by `find_next_node`. -/
def lookup.offroad_cost (self : lookup R) (E : externals R) (P : profile)
    (wc : way_candidate R) (dir : direction) (reverse : Bool) (search_dir : direction) :
    cost_t :=
  P.way_cost (self.ways_.way_properties_ wc.way_) (effective_dir E dir reverse search_dir)
    (E.to_distance_t wc.dist_to_way_)

/-- The vertices of the way of a candidate: polyline points paired with the
external node references. -/
def lookup.vertices (self : lookup R) (wc : way_candidate R) :
    List (latlng R × osm_node_idx_t) :=
  List.zip (self.ways_.way_polylines_ wc.way_) (self.ways_.way_osm_nodes_ wc.way_)

/-- The vertices on one side of the projection point of a candidate, in the
order in which `find_next_node` walks over them. -/
def lookup.side (self : lookup R) (wc : way_candidate R) (dir : direction) :
    List (latlng R × osm_node_idx_t) :=
  walk_order (wc.segment_idx_ + (if dir = direction.kForward then 1 else 0))
    (self.vertices wc) dir

/-- The squared distance, closest point and sub-segment index the projection
engine reports for a way. -/
def lookup.projection (self : lookup R) (E : externals R) (query : location R)
    (way : way_idx_t) : R × latlng R × Nat :=
  E.approx_squared_distance_to_polyline query.pos_ (self.ways_.way_polylines_ way)
    (E.approx_distance_lng_degrees query.pos_)

/-- The way candidate `get_way_candidates` hands to `find_next_node` for a
way that passes the distance filter. -/
def lookup.projected (self : lookup R) (E : externals R) (query : location R)
    (way : way_idx_t) : way_candidate R :=
  { dist_to_way_ := E.sqrt (self.projection E query way).1
    best_ := (self.projection E query way).2.1
    segment_idx_ := (self.projection E query way).2.2
    query_ := query
    way_ := way
    left_ := node_candidate.init E
    right_ := node_candidate.init E }

/-- The last step of `find_next_node`: the path is reversed for a reversed
match. -/
def finish (reverse : Bool) (c : node_candidate R) : node_candidate R :=
  if reverse then { c with path_ := c.path_.reverse } else c

/-- The candidate with which `find_next_node` starts its walk. -/
def lookup.start_candidate (self : lookup R) (E : externals R) (P : profile)
    (wc : way_candidate R) (dir : direction) (lvl : level_t) (reverse : Bool)
    (search_dir : direction) : node_candidate R :=
  { lvl_ := lvl
    way_dir_ := dir
    node_ := E.node_invalid
    dist_to_node_ := wc.dist_to_way_
    cost_ := self.offroad_cost E P wc dir reverse search_dir
    offroad_cost_ := self.offroad_cost E P wc dir reverse search_dir
    path_ := [wc.best_] }

/-- The candidate `c`, whose path ends in `last`, after a walk over the
vertices `vs`, written without the loop: the node is the first usable one, the
path grows by the visited vertices, distance and cost grow by the lengths and
costs of the hops. -/
def lookup.walked (self : lookup R) (E : externals R) (P : profile)
    (way_prop : way_properties) (eff_dir : direction) (blocked : Option (node_idx_t → Bool))
    (approx_distance_lng_degrees : R) (c : node_candidate R) (last : latlng R)
    (vs : List (latlng R × osm_node_idx_t)) : node_candidate R :=
  { lvl_ := c.lvl_
    way_dir_ := c.way_dir_
    node_ := (vs.findSome? (self.usable_node blocked)).getD c.node_
    dist_to_node_ := c.dist_to_node_ +
      (hop_lengths E approx_distance_lng_degrees
        (last :: (self.visited blocked vs).map Prod.fst)).sum
    cost_ := cost_sum E.cost_bits c.cost_
      (hop_costs E P way_prop eff_dir approx_distance_lng_degrees
        (last :: (self.visited blocked vs).map Prod.fst))
    offroad_cost_ := c.offroad_cost_
    path_ := c.path_ ++ (self.visited blocked vs).map Prod.fst }

/-- The node candidate `get_way_candidates` computes for one side of a way: the
call of `find_next_node` on the projected candidate. -/
def lookup.node_candidate_of (self : lookup R) (E : externals R) (P : profile)
    (query : location R) (reverse : Bool) (search_dir : direction)
    (blocked : Option (node_idx_t → Bool)) (way : way_idx_t) (dir : direction) :
    Option (node_candidate R) :=
  self.find_next_node E P (self.projected E query way) query dir query.lvl_ reverse search_dir
    blocked (E.approx_distance_lng_degrees query.pos_)

/-- The way candidate `get_way_candidates` builds for a way from its two node
candidates. -/
def lookup.assembled (self : lookup R) (E : externals R) (query : location R)
    (way : way_idx_t) (l r : node_candidate R) : way_candidate R :=
  { dist_to_way_ := E.sqrt (self.projection E query way).1
    best_ := (self.projection E query way).2.1
    segment_idx_ := (self.projection E query way).2.2
    query_ := query
    way_ := way
    left_ := l
    right_ := r }

/-- The candidate `x` is the one built for `way`, the way passes the distance
filter, and one of the two node candidates is valid. -/
def lookup.survives (self : lookup R) (E : externals R) (P : profile)
    (query : location R) (reverse : Bool) (search_dir : direction)
    (blocked : Option (node_idx_t → Bool)) (squared_max_dist : R) (way : way_idx_t)
    (x : way_candidate R) : Prop :=
  (self.projection E query way).1 < squared_max_dist ∧
  ∃ l r, self.node_candidate_of E P query reverse search_dir blocked way direction.kBackward
      = some l ∧
    self.node_candidate_of E P query reverse search_dir blocked way direction.kForward
      = some r ∧
    (l.valid E = true ∨ r.valid E = true) ∧ x = self.assembled E query way l r

end

/-! ## A sample network

A small concrete instance over the integers (coordinates and distances in whole
units), on which the definitions above can be evaluated. -/

/-- The helper `opposite` of the sample instance. -/
def sample_opposite : direction → direction
  | direction.kForward => direction.kBackward
  | direction.kBackward => direction.kForward

/-- The helper `flip` of the sample instance. -/
def sample_flip (search_dir dir : direction) : direction :=
  if search_dir = direction.kForward then dir else sample_opposite dir

/-- Search for the integer square root by counting up. -/
def isqrt_go (n : Nat) : Nat → Nat → Nat
  | 0, k => k
  | fuel + 1, k => if (k + 1) * (k + 1) ≤ n then isqrt_go n fuel (k + 1) else k

/-- The integer square root, rounded down; zero on negative numbers. -/
def isqrt (x : ℤ) : ℤ :=
  (isqrt_go x.toNat x.toNat 0 : Nat)

/-- The squared planar distance of two points. -/
def sample_squared_distance (a b : latlng ℤ) (_lng_degrees : ℤ) : ℤ :=
  (a.lat_ - b.lat_) ^ 2 + (a.lng_ - b.lng_) ^ 2

/-- The point of the segment from `a` to `b` closest to `x`, for segments
parallel to an axis (the start point for any other segment). -/
def sample_closest_on_segment (x a b : latlng ℤ) : latlng ℤ :=
  if a.lat_ = b.lat_ then
    { lat_ := a.lat_, lng_ := max (min a.lng_ b.lng_) (min x.lng_ (max a.lng_ b.lng_)) }
  else if a.lng_ = b.lng_ then
    { lat_ := max (min a.lat_ b.lat_) (min x.lat_ (max a.lat_ b.lat_)), lng_ := a.lng_ }
  else a

/-- The scan over the sub-segments of a polyline that keeps the closest one. -/
def sample_to_polyline_go (x : latlng ℤ) (lng_degrees : ℤ) :
    List (latlng ℤ) → Nat → ℤ × latlng ℤ × Nat → ℤ × latlng ℤ × Nat
  | a :: b :: rest, segment_idx, best =>
    let candidate := sample_closest_on_segment x a b
    let dist := sample_squared_distance x candidate lng_degrees
    sample_to_polyline_go x lng_degrees (b :: rest) (segment_idx + 1)
      (if dist < best.1 then (dist, candidate, segment_idx) else best)
  | _, _, best => best

/-- The projection of a point on a polyline, in the sample instance. -/
def sample_to_polyline (x : latlng ℤ) (polyline : List (latlng ℤ)) (lng_degrees : ℤ) :
    ℤ × latlng ℤ × Nat :=
  sample_to_polyline_go x lng_degrees polyline 0 (1000000000, { lat_ := 0, lng_ := 0 }, 0)

/-- The externals of the sample instance: 16-bit costs, planar geometry. -/
def sample_externals : externals ℤ :=
  { kNoLevel := 0
    node_invalid := 4294967295
    way_invalid := 4294967295
    kInfeasible := 65535
    cost_bits := 16
    opposite := sample_opposite
    flip := sample_flip
    to_distance_t := Int.toNat
    sqrt := isqrt
    approx_distance_lng_degrees := fun _ => 1
    approx_squared_distance := sample_squared_distance
    approx_squared_distance_to_polyline := sample_to_polyline
    box_around := fun center dist =>
      { min_ := { lat_ := center.lat_ - dist, lng_ := center.lng_ - dist }
        max_ := { lat_ := center.lat_ + dist, lng_ := center.lng_ + dist } } }

/-- The way store of the sample instance.  Way 0 runs along the line of
latitude 0 through longitudes 0, 10, 20, 30, its vertices referring to the
external nodes 100 to 103; way 1 runs along latitude 5 through longitudes 0
and 10 (external nodes 104, 105) and has the properties value 1; way 2 runs
along latitude 50 (external nodes 106, 107) and has the properties value 2; way
3 runs from (100, 100) over (100, 200) to (200, 200) (external nodes 108 to
110).  External node 101 is not a node of the graph. -/
def sample_ways : ways ℤ :=
  { way_polylines_ := fun w =>
      match w with
      | 0 => [⟨0, 0⟩, ⟨0, 10⟩, ⟨0, 20⟩, ⟨0, 30⟩]
      | 1 => [⟨5, 0⟩, ⟨5, 10⟩]
      | 2 => [⟨50, 0⟩, ⟨50, 10⟩]
      | 3 => [⟨100, 100⟩, ⟨100, 200⟩, ⟨200, 200⟩]
      | _ => []
    way_osm_nodes_ := fun w =>
      match w with
      | 0 => [100, 101, 102, 103]
      | 1 => [104, 105]
      | 2 => [106, 107]
      | 3 => [108, 109, 110]
      | _ => []
    way_properties_ := fun w =>
      match w with
      | 1 => 1
      | 2 => 2
      | _ => 0
    find_node_idx := fun o =>
      match o with
      | 100 => some 0
      | 102 => some 2
      | 103 => some 3
      | 104 => some 4
      | 105 => some 5
      | 106 => some 6
      | 107 => some 7
      | 108 => some 8
      | 109 => some 9
      | 110 => some 10
      | _ => none }

/-- The bounding box of a polyline, if it has a point. -/
def sample_bounding_box : List (latlng ℤ) → Option (box ℤ)
  | [] => none
  | p :: ps =>
    some (ps.foldl (fun b q =>
      { min_ := { lat_ := min b.min_.lat_ q.lat_, lng_ := min b.min_.lng_ q.lng_ }
        max_ := { lat_ := max b.max_.lat_ q.lat_, lng_ := max b.max_.lng_ q.lng_ } })
      { min_ := p, max_ := p })

/-- Whether two boxes meet. -/
def sample_boxes_meet (a b : box ℤ) : Bool :=
  decide (a.min_.lat_ ≤ b.max_.lat_) && decide (b.min_.lat_ ≤ a.max_.lat_) &&
  decide (a.min_.lng_ ≤ b.max_.lng_) && decide (b.min_.lng_ ≤ a.max_.lng_)

/-- The sample lookup: the range search delivers, in index order, the ways 0
to 3 whose bounding box meets the query box. -/
def sample_lookup : lookup ℤ :=
  { ways_ := sample_ways
    rtree_search := fun b =>
      (List.range 4).filter (fun w =>
        match sample_bounding_box (sample_ways.way_polylines_ w) with
        | none => false
        | some wb => sample_boxes_meet wb b) }

/-- A sample cost profile: one cost unit per distance unit; ways with the
properties value 1 are one-way (infeasible against the direction of the
polyline), ways with the properties value 2 are closed. -/
def sample_profile : profile :=
  { way_cost := fun prop dir dist =>
      if prop = 2 then 65535
      else if prop = 1 ∧ dir = direction.kBackward then 65535
      else min dist 65534 }

/-- A sample cost profile charging 400 cost units per distance unit (capped
below `kInfeasible`), in either direction. -/
def steep_profile : profile :=
  { way_cost := fun _ _ dist => min (dist * 400) 65534 }

/-- A query location at latitude 3, longitude 12, level 0. -/
def sample_query : location ℤ :=
  { pos_ := { lat_ := 3, lng_ := 12 }, lvl_ := 0 }

/-- The largest `f` with `f ^ 2 ≤ n` among the numbers `r + k` with
`k < 2 ^ bits`, found bit by bit from the highest bit down. -/
def bit_sqrt (n : Nat) : Nat → Nat → Nat
  | 0, r => r
  | b + 1, r => if (r + 2 ^ b) ^ 2 ≤ n then bit_sqrt n b (r + 2 ^ b) else bit_sqrt n b r

/-- The even number nearest to the exact square root of `n`, given the floor
`f` of that root: with `lo` the even one of `f - 1` and `f`, the root lies
between `lo` and `lo + 2` and is compared with the middle `lo + 1`; a root in
the middle goes to the one of `lo` and `lo + 2` whose half is even. -/
def round_to_even (n f : Nat) : Nat :=
  let lo := f - f % 2
  if n < (lo + 1) ^ 2 then lo
  else if (lo + 1) ^ 2 < n then lo + 2
  else if (lo / 2) % 2 = 0 then lo
  else lo + 2

/-- The binary64 `std::sqrt` (correctly rounded: to nearest, ties to even) on
arguments in `[1, 4)`, with a distance `x` written as the integer `x * 2 ^ 53`
and a squared distance `y` as the integer `y * 2 ^ 106`.  The results lie in
`[1, 2]`, where the binary64 numbers are the multiples of `2 ^ -52`, written as
the even integers: the exact root is rounded to the nearest even integer. -/
def binary64_sqrt (x : ℤ) : ℤ :=
  (round_to_even x.toNat (bit_sqrt x.toNat 64 0) : Nat)

/-- The binary64 number 1.25, as the integer `1.25 * 2 ^ 53`. -/
def binary64_radius : ℤ := 5 * 2 ^ 51

/-- The binary64 number `1.5625 - 2 ^ -52` = 1.5624999999999998, the one next
below `1.25 ^ 2` = 1.5625, as the integer `(1.5625 - 2 ^ -52) * 2 ^ 106`. -/
def binary64_squared_distance : ℤ := 25 * 2 ^ 102 - 2 ^ 54

/-- Externals with distances in units of `2 ^ -53` and squared distances in
units of `2 ^ -106`: the square root is the binary64 one, the conversion to
`distance_t` drops the fraction, every hop between two points has the squared
length 1, and the projection on a polyline reports the squared distance
1.5624999999999998 to its first point. -/
def binary64_externals : externals ℤ :=
  { sample_externals with
    to_distance_t := fun x => (x / 2 ^ 53).toNat
    sqrt := binary64_sqrt
    approx_squared_distance := fun _ _ _ => 2 ^ 106
    approx_squared_distance_to_polyline := fun _ polyline _ =>
      (binary64_squared_distance, polyline.headD ⟨0, 0⟩, 0) }

/-- A lookup over the sample way store whose range search delivers way 0. -/
def binary64_lookup : lookup ℤ :=
  { ways_ := sample_ways
    rtree_search := fun _ => [0] }

/-- A way store whose ways have 4294967297 = `2 ^ 32 + 1` vertices, none of
which refers to a node of the graph. -/
def long_ways : ways ℤ :=
  { way_polylines_ := fun _ => List.replicate 4294967297 ⟨0, 0⟩
    way_osm_nodes_ := fun _ => List.replicate 4294967297 0
    way_properties_ := fun _ => 0
    find_node_idx := fun _ => none }

/-- A lookup over the way store with the long ways. -/
def long_lookup : lookup ℤ :=
  { ways_ := long_ways
    rtree_search := fun _ => [0] }

/-- A way candidate on way 0 of the long ways, projected on the sub-segment
with the index 4294967295 = `2 ^ 32 - 1`. -/
def long_candidate : way_candidate ℤ :=
  { dist_to_way_ := 0
    best_ := ⟨0, 0⟩
    segment_idx_ := 4294967295
    query_ := ⟨⟨0, 0⟩, 0⟩
    way_ := 0
    left_ := node_candidate.init sample_externals
    right_ := node_candidate.init sample_externals }

/-- A callback that also records the elements it is called on, in call order,
each with the answer the callback gave for it. -/
def recording {α σ : Type} (fn : σ → α → Option (cflow × σ)) :
    σ × List (α × cflow) → α → Option (cflow × (σ × List (α × cflow)))
  | (s, log), x =>
    match fn s x with
    | none => none
    | some (f, s') => some (f, (s', log ++ [(x, f)]))

/-! ## The loops of till_the_end -/

theorem till_the_end_forward_eq_walk {α σ : Type} (coll : List α)
    (fn : σ → α → Option (cflow × σ)) :
    ∀ (fuel i : Nat) (s : σ), i ≤ coll.length → coll.length - i < fuel →
      till_the_end_forward coll fn fuel i s = walk fn (coll.drop i) s := by
  intro fuel
  induction fuel with
  | zero => intro i s _ h; omega
  | succ fuel ih =>
    intro i s hi hfuel
    unfold till_the_end_forward
    by_cases hlen : i = coll.length
    · subst hlen
      simp [walk]
    · have hlt : i < coll.length := by omega
      rw [if_neg hlen, List.getElem?_eq_getElem hlt, List.drop_eq_getElem_cons hlt]
      simp only [walk]
      cases hfn : fn s coll[i] with
      | none => rfl
      | some r =>
        obtain ⟨f, s'⟩ := r
        cases f with
        | kBreak => rfl
        | kContinue => exact ih (i + 1) s' (by omega) (by omega)

theorem till_the_end_backward_eq_walk {α σ : Type} (coll : List α)
    (fn : σ → α → Option (cflow × σ)) (start : Nat) (hstart : start < coll.length) :
    ∀ (fuel j : Nat) (s : σ), j ≤ start + 1 → start + 1 - j < fuel →
      till_the_end_backward coll fn start fuel j s
        = walk fn ((coll.take (start + 1 - j)).reverse) s := by
  intro fuel
  induction fuel with
  | zero => intro j s _ h; omega
  | succ fuel ih =>
    intro j s hj hfuel
    unfold till_the_end_backward
    by_cases hle : j ≤ start
    · have hlt : start - j < coll.length := by omega
      have htake : coll.take (start + 1 - j) = coll.take (start - j) ++ [coll[start - j]] := by
        have h1 : start + 1 - j = (start - j) + 1 := by omega
        rw [h1, List.take_succ, List.getElem?_eq_getElem hlt]
        rfl
      rw [if_pos hle]
      simp only [List.getElem?_eq_getElem hlt, htake, List.reverse_append,
        List.reverse_singleton, List.singleton_append, walk]
      cases hfn : fn s coll[start - j] with
      | none => rfl
      | some r =>
        obtain ⟨f, s'⟩ := r
        cases f with
        | kBreak => rfl
        | kContinue =>
          have h2 := ih (j + 1) s' (by omega) (by omega)
          have h3 : start + 1 - (j + 1) = start - j := by omega
          rw [h3] at h2
          exact h2
    · have h0 : start + 1 - j = 0 := by omega
      rw [if_neg hle, h0]
      simp [walk]

/-- Within the collection, `till_the_end` is the walk over `walk_order`. -/
theorem till_the_end_eq_walk {α σ : Type} (start : Nat) (coll : List α) (dir : direction)
    (fn : σ → α → Option (cflow × σ)) (s : σ)
    (h : start + (if dir = direction.kForward then 0 else 1) ≤ coll.length) :
    till_the_end start coll dir fn s = walk fn (walk_order start coll dir) s := by
  unfold till_the_end walk_order
  by_cases hd : dir = direction.kForward
  · simp only [hd, if_true] at h ⊢
    exact till_the_end_forward_eq_walk coll fn _ start s (by omega) (by omega)
  · simp only [hd, if_false] at h ⊢
    exact till_the_end_backward_eq_walk coll fn start (by omega) _ 0 s (by omega) (by omega)

/-! ## The 32-bit counter of the backward loop -/

/-- While `start + 1 < 2 ^ 32` the 32-bit counter never wraps: the loop with the
32-bit counter is the loop with the natural-number counter. -/
theorem till_the_end_backward_u32_eq {α σ : Type} (coll : List α)
    (fn : σ → α → Option (cflow × σ)) (start : Nat) (hsmall : start + 1 < 2 ^ 32) :
    ∀ (fuel j : Nat) (s : σ),
      till_the_end_backward_u32 coll fn start fuel j s
        = till_the_end_backward coll fn start fuel j s := by
  intro fuel
  induction fuel with
  | zero => intro j s; rfl
  | succ fuel ih =>
    intro j s
    unfold till_the_end_backward_u32 till_the_end_backward
    by_cases hj : j ≤ start
    · have hmod : (j + 1) % 2 ^ 32 = j + 1 := Nat.mod_eq_of_lt (by omega)
      simp only [if_pos hj, hmod, ih]
    · simp only [if_neg hj]

/-- The function with the 32-bit counter is `till_the_end` for every forward
walk, and for a backward walk with `start + 1 < 2 ^ 32`. -/
theorem till_the_end_u32_eq {α σ : Type} (start : Nat) (coll : List α) (dir : direction)
    (fn : σ → α → Option (cflow × σ)) (s : σ)
    (hsmall : dir = direction.kBackward → start + 1 < 2 ^ 32) :
    till_the_end_u32 start coll dir fn s = till_the_end start coll dir fn s := by
  unfold till_the_end_u32 till_the_end
  cases dir with
  | kForward => rfl
  | kBackward =>
    simp only [reduceCtorEq, if_false]
    exact till_the_end_backward_u32_eq coll fn start (hsmall rfl) _ _ _

/-- From `start = 2 ^ 32 - 1` on, the test `j <= start` never fails for a 32-bit
`j`: with a callback that never breaks the loop has no result, whatever the
number of loop tests. -/
theorem till_the_end_backward_u32_never_returns {α σ : Type} (coll : List α)
    (fn : σ → α → Option (cflow × σ)) (start : Nat) (hbig : 2 ^ 32 ≤ start + 1)
    (hfn : ∀ s x, fn s x = none ∨ ∃ s', fn s x = some (cflow.kContinue, s')) :
    ∀ (fuel j : Nat) (s : σ), j < 2 ^ 32 →
      till_the_end_backward_u32 coll fn start fuel j s = none := by
  intro fuel
  induction fuel with
  | zero => intro j s _; rfl
  | succ fuel ih =>
    intro j s hj
    unfold till_the_end_backward_u32
    have hle : j ≤ start := by omega
    simp only [if_pos hle]
    cases hx : coll[start - j]? with
    | none => rfl
    | some x =>
      rcases hfn s x with h | ⟨s', h⟩
      · simp only [h]
      · simp only [h]
        exact ih _ s' (Nat.mod_lt _ (by norm_num))

/-! ## The widening loop of match -/

section
variable {R : Type} [LinearOrderedCommRing R]

theorem match_loop_stop (self : lookup R) (E : externals R) (P : profile)
    (query : location R) (reverse : Bool) (search_dir : direction)
    (blocked : Option (node_idx_t → Bool)) (fuel : Nat) (s : match_state R)
    (h : s.way_candidates ≠ []) :
    self.match_loop E P query reverse search_dir blocked (fuel + 1) s = some s := by
  unfold lookup.match_loop
  cases hw : s.way_candidates with
  | nil => exact absurd hw h
  | cons x xs => simp

theorem match_loop_step (self : lookup R) (E : externals R) (P : profile)
    (query : location R) (reverse : Bool) (search_dir : direction)
    (blocked : Option (node_idx_t → Bool)) (fuel i : Nat) (d : R) (calls : List R)
    (hi : i < 4) :
    self.match_loop E P query reverse search_dir blocked (fuel + 1)
        { way_candidates := [], i := i, max_match_distance := d, calls := calls }
      = match self.get_way_candidates E P query reverse search_dir (d * 2) blocked with
        | none => none
        | some wcs =>
          self.match_loop E P query reverse search_dir blocked fuel
            { way_candidates := wcs, i := i + 1, max_match_distance := d * 2,
              calls := calls ++ [d * 2] } := by
  conv_lhs => unfold lookup.match_loop
  simp [hi]

theorem match_loop_end (self : lookup R) (E : externals R) (P : profile)
    (query : location R) (reverse : Bool) (search_dir : direction)
    (blocked : Option (node_idx_t → Bool)) (fuel i : Nat) (d : R) (calls : List R)
    (hi : ¬ i < 4) :
    self.match_loop E P query reverse search_dir blocked (fuel + 1)
        { way_candidates := [], i := i, max_match_distance := d, calls := calls }
      = some { way_candidates := [], i := i + 1, max_match_distance := d, calls := calls } := by
  conv_lhs => unfold lookup.match_loop
  simp [hi]

/-- The step budget of the loop of `match` does not matter once it exceeds the
number of widenings still allowed: the budget 5 of `match_run` never runs
out. -/
theorem match_loop_fuel (self : lookup R) (E : externals R) (P : profile)
    (query : location R) (reverse : Bool) (search_dir : direction)
    (blocked : Option (node_idx_t → Bool)) :
    ∀ (n : Nat) (s : match_state R) (fuel : Nat), 4 - s.i = n → n < fuel →
      self.match_loop E P query reverse search_dir blocked fuel s
        = self.match_loop E P query reverse search_dir blocked (n + 1) s := by
  intro n
  induction n with
  | zero =>
    intro s fuel hn hfuel
    obtain ⟨fuel, rfl⟩ : ∃ f, fuel = f + 1 := ⟨fuel - 1, by omega⟩
    obtain ⟨wcs, i, d, calls⟩ := s
    cases wcs with
    | nil =>
      have hi : ¬ i < 4 := by simp at hn; omega
      rw [match_loop_end _ _ _ _ _ _ _ _ _ _ _ hi, match_loop_end _ _ _ _ _ _ _ _ _ _ _ hi]
    | cons x xs =>
      rw [match_loop_stop _ _ _ _ _ _ _ _ _ (by simp), match_loop_stop _ _ _ _ _ _ _ _ _ (by simp)]
  | succ n ih =>
    intro s fuel hn hfuel
    obtain ⟨fuel, rfl⟩ : ∃ f, fuel = f + 1 := ⟨fuel - 1, by omega⟩
    obtain ⟨wcs, i, d, calls⟩ := s
    cases wcs with
    | nil =>
      have hi : i < 4 := by simp at hn; omega
      rw [match_loop_step _ _ _ _ _ _ _ _ _ _ _ hi, match_loop_step _ _ _ _ _ _ _ _ _ _ _ hi]
      cases self.get_way_candidates E P query reverse search_dir (d * 2) blocked with
      | none => rfl
      | some l => exact ih _ fuel (by simp at hn ⊢; omega) (by omega)
    | cons x xs =>
      rw [match_loop_stop _ _ _ _ _ _ _ _ _ (by simp), match_loop_stop _ _ _ _ _ _ _ _ _ (by simp)]

/-- The run of `match` written out attempt by attempt. -/
theorem match_run_unfold (self : lookup R) (E : externals R) (P : profile)
    (query : location R) (reverse : Bool) (search_dir : direction) (r : R)
    (blocked : Option (node_idx_t → Bool)) :
    self.match_run E P query reverse search_dir r blocked
      = match self.get_way_candidates E P query reverse search_dir r blocked with
        | none => none
        | some (x :: xs) => some ⟨x :: xs, 0, r, [r]⟩
        | some [] =>
        match self.get_way_candidates E P query reverse search_dir (r * 2) blocked with
        | none => none
        | some (x :: xs) => some ⟨x :: xs, 1, r * 2, [r, r * 2]⟩
        | some [] =>
        match self.get_way_candidates E P query reverse search_dir (r * 2 * 2) blocked with
        | none => none
        | some (x :: xs) => some ⟨x :: xs, 2, r * 2 * 2, [r, r * 2, r * 2 * 2]⟩
        | some [] =>
        match self.get_way_candidates E P query reverse search_dir (r * 2 * 2 * 2) blocked with
        | none => none
        | some (x :: xs) =>
          some ⟨x :: xs, 3, r * 2 * 2 * 2, [r, r * 2, r * 2 * 2, r * 2 * 2 * 2]⟩
        | some [] =>
        match self.get_way_candidates E P query reverse search_dir (r * 2 * 2 * 2 * 2)
            blocked with
        | none => none
        | some l =>
          some ⟨l, if l = [] then 5 else 4, r * 2 * 2 * 2 * 2,
            [r, r * 2, r * 2 * 2, r * 2 * 2 * 2, r * 2 * 2 * 2 * 2]⟩ := by
  unfold lookup.match_run
  cases h0 : self.get_way_candidates E P query reverse search_dir r blocked with
  | none => rfl
  | some l0 =>
  cases l0 with
  | cons x xs => simp [match_loop_stop]
  | nil =>
  simp only []
  rw [match_loop_step _ _ _ _ _ _ _ _ _ _ _ (by norm_num)]
  cases h1 : self.get_way_candidates E P query reverse search_dir (r * 2) blocked with
  | none => rfl
  | some l1 =>
  cases l1 with
  | cons x xs => simp [match_loop_stop]
  | nil =>
  simp only []
  rw [match_loop_step _ _ _ _ _ _ _ _ _ _ _ (by norm_num)]
  cases h2 : self.get_way_candidates E P query reverse search_dir (r * 2 * 2) blocked with
  | none => rfl
  | some l2 =>
  cases l2 with
  | cons x xs => simp [match_loop_stop]
  | nil =>
  simp only []
  rw [match_loop_step _ _ _ _ _ _ _ _ _ _ _ (by norm_num)]
  cases h3 : self.get_way_candidates E P query reverse search_dir (r * 2 * 2 * 2) blocked with
  | none => rfl
  | some l3 =>
  cases l3 with
  | cons x xs => simp [match_loop_stop]
  | nil =>
  simp only []
  rw [match_loop_step _ _ _ _ _ _ _ _ _ _ _ (by norm_num)]
  cases h4 : self.get_way_candidates E P query reverse search_dir (r * 2 * 2 * 2 * 2)
      blocked with
  | none => rfl
  | some l4 =>
  cases l4 with
  | cons x xs => simp [match_loop_stop]
  | nil => simp [match_loop_end]

/-- The attempt-by-attempt form of a run, read as a statement about the first
attempt that is not empty. -/
theorem widening_cases (g : R → Option (match_t R)) (r : R) (run : Option (match_state R))
    (hrun : run
      = match g r with
        | none => none
        | some (x :: xs) => some ⟨x :: xs, 0, r, [r]⟩
        | some [] =>
        match g (r * 2) with
        | none => none
        | some (x :: xs) => some ⟨x :: xs, 1, r * 2, [r, r * 2]⟩
        | some [] =>
        match g (r * 2 * 2) with
        | none => none
        | some (x :: xs) => some ⟨x :: xs, 2, r * 2 * 2, [r, r * 2, r * 2 * 2]⟩
        | some [] =>
        match g (r * 2 * 2 * 2) with
        | none => none
        | some (x :: xs) =>
          some ⟨x :: xs, 3, r * 2 * 2 * 2, [r, r * 2, r * 2 * 2, r * 2 * 2 * 2]⟩
        | some [] =>
        match g (r * 2 * 2 * 2 * 2) with
        | none => none
        | some l =>
          some ⟨l, if l = [] then 5 else 4, r * 2 * 2 * 2 * 2,
            [r, r * 2, r * 2 * 2, r * 2 * 2 * 2, r * 2 * 2 * 2 * 2]⟩) :
    ∃ k, k ≤ 4 ∧ (∀ j, j < k → g (r * 2 ^ j) = some []) ∧
      (k < 4 → g (r * 2 ^ k) ≠ some []) ∧
      run.map (fun s => s.way_candidates) = g (r * 2 ^ k) ∧
      run.map (fun s => s.calls)
        = (g (r * 2 ^ k)).map (fun _ => (List.range (k + 1)).map (fun j => r * 2 ^ j)) := by
  have e0 : r * 2 ^ 0 = r := by ring
  have e1 : r * 2 ^ 1 = r * 2 := by ring
  have e2 : r * 2 ^ 2 = r * 2 * 2 := by ring
  have e3 : r * 2 ^ 3 = r * 2 * 2 * 2 := by ring
  have e4 : r * 2 ^ 4 = r * 2 * 2 * 2 * 2 := by ring
  cases h0 : g r with
  | none =>
    refine ⟨0, by norm_num, fun j hj => absurd hj (by omega), ?_, ?_, ?_⟩ <;>
      simp [hrun, h0, e0]
  | some l0 =>
  cases l0 with
  | cons x xs =>
    refine ⟨0, by norm_num, fun j hj => absurd hj (by omega), ?_, ?_, ?_⟩ <;>
      simp [hrun, h0, e0, List.range_succ]
  | nil =>
  cases h1 : g (r * 2) with
  | none =>
    refine ⟨1, by norm_num, fun j hj => ?_, ?_, ?_, ?_⟩
    · interval_cases j; simpa [e0] using h0
    all_goals simp [hrun, h0, h1, e1]
  | some l1 =>
  cases l1 with
  | cons x xs =>
    refine ⟨1, by norm_num, fun j hj => ?_, ?_, ?_, ?_⟩
    · interval_cases j; simpa [e0] using h0
    all_goals simp [hrun, h0, h1, e0, e1, List.range_succ]
  | nil =>
  cases h2 : g (r * 2 * 2) with
  | none =>
    refine ⟨2, by norm_num, fun j hj => ?_, ?_, ?_, ?_⟩
    · interval_cases j
      · simpa [e0] using h0
      · simpa [e1] using h1
    all_goals simp [hrun, h0, h1, h2, e2]
  | some l2 =>
  cases l2 with
  | cons x xs =>
    refine ⟨2, by norm_num, fun j hj => ?_, ?_, ?_, ?_⟩
    · interval_cases j
      · simpa [e0] using h0
      · simpa [e1] using h1
    all_goals simp [hrun, h0, h1, h2, e0, e1, e2, List.range_succ]
  | nil =>
  cases h3 : g (r * 2 * 2 * 2) with
  | none =>
    refine ⟨3, by norm_num, fun j hj => ?_, ?_, ?_, ?_⟩
    · interval_cases j
      · simpa [e0] using h0
      · simpa [e1] using h1
      · simpa [e2] using h2
    all_goals simp [hrun, h0, h1, h2, h3, e3]
  | some l3 =>
  cases l3 with
  | cons x xs =>
    refine ⟨3, by norm_num, fun j hj => ?_, ?_, ?_, ?_⟩
    · interval_cases j
      · simpa [e0] using h0
      · simpa [e1] using h1
      · simpa [e2] using h2
    all_goals simp [hrun, h0, h1, h2, h3, e0, e1, e2, e3, List.range_succ]
  | nil =>
  refine ⟨4, by norm_num, fun j hj => ?_, fun h => absurd h (by omega), ?_, ?_⟩
  · interval_cases j
    · simpa [e0] using h0
    · simpa [e1] using h1
    · simpa [e2] using h2
    · simpa [e3] using h3
  all_goals
    cases h4 : g (r * 2 * 2 * 2 * 2) with
    | none => simp [hrun, h0, h1, h2, h3, h4, e4]
    | some l4 => simp [hrun, h0, h1, h2, h3, h4, e0, e1, e2, e3, e4, List.range_succ]

/-- C1: `match` returns the result of `get_way_candidates` at radius `r * 2 ^ k`
for the smallest `k` among 0, 1, 2, 3, 4 at which that result is not the empty
list (the first `k` attempts all gave the empty list), and the result of the
attempt at radius `16 * r` if the attempts at `r, 2r, 4r, 8r` were all empty.
`get_way_candidates` is called exactly `k + 1 ≤ 5` times, with the radii
`r, 2r, ..., r * 2 ^ k` in that order, and the returned list is the list of the
last attempt alone. -/
theorem match_widening (self : lookup R) (E : externals R) (P : profile)
    (query : location R) (reverse : Bool) (search_dir : direction) (r : R)
    (blocked : Option (node_idx_t → Bool)) :
    ∃ k, k ≤ 4 ∧
      (∀ j, j < k →
        self.get_way_candidates E P query reverse search_dir (r * 2 ^ j) blocked = some []) ∧
      (k < 4 →
        self.get_way_candidates E P query reverse search_dir (r * 2 ^ k) blocked ≠ some []) ∧
      self.match_ E P query reverse search_dir r blocked
        = self.get_way_candidates E P query reverse search_dir (r * 2 ^ k) blocked ∧
      self.match_calls E P query reverse search_dir r blocked
        = (self.get_way_candidates E P query reverse search_dir (r * 2 ^ k) blocked).map
            (fun _ => (List.range (k + 1)).map (fun j => r * 2 ^ j)) :=
  widening_cases (fun d => self.get_way_candidates E P query reverse search_dir d blocked) r
    (self.match_run E P query reverse search_dir r blocked)
    (match_run_unfold self E P query reverse search_dir r blocked)

end

/-! ## The assembler: segments outside the radius -/

section
variable {R : Type} [LinearOrderedCommRing R]

theorem get_way_candidates_visit_far (self : lookup R) (E : externals R) (P : profile)
    (query : location R) (reverse : Bool) (search_dir : direction)
    (blocked : Option (node_idx_t → Bool)) (squared_max_dist : R) (acc : match_t R)
    (way : way_idx_t) (h : ¬ (self.projection E query way).1 < squared_max_dist) :
    self.get_way_candidates_visit E P query reverse search_dir blocked
      (E.approx_distance_lng_degrees query.pos_) squared_max_dist acc way = some acc := by
  unfold lookup.get_way_candidates_visit
  unfold lookup.projection at h
  simp only [if_neg h]

theorem find_all_far (self : lookup R) (E : externals R) (P : profile)
    (query : location R) (reverse : Bool) (search_dir : direction)
    (blocked : Option (node_idx_t → Bool)) (squared_max_dist : R) :
    ∀ (ws : List way_idx_t) (acc : match_t R),
      (∀ way ∈ ws, ¬ (self.projection E query way).1 < squared_max_dist) →
      ws.foldlM (self.get_way_candidates_visit E P query reverse search_dir blocked
        (E.approx_distance_lng_degrees query.pos_) squared_max_dist) acc = some acc := by
  intro ws
  induction ws with
  | nil => intro acc _; rfl
  | cons w ws ih =>
    intro acc h
    rw [List.foldlM_cons,
      get_way_candidates_visit_far self E P query reverse search_dir blocked squared_max_dist
        acc w (h w (List.mem_cons_self _ _))]
    exact ih acc (fun way hway => h way (List.mem_cons_of_mem _ hway))

/-- When no segment delivered by the range search lies within the radius, the
assembler returns the empty list. -/
theorem get_way_candidates_all_far (self : lookup R) (E : externals R) (P : profile)
    (query : location R) (reverse : Bool) (search_dir : direction) (d : R)
    (blocked : Option (node_idx_t → Bool))
    (h : ∀ way ∈ self.rtree_search (E.box_around query.pos_ d),
      ¬ (self.projection E query way).1 < d ^ 2) :
    self.get_way_candidates E P query reverse search_dir d blocked = some [] := by
  unfold lookup.get_way_candidates lookup.find
  simp only []
  rw [find_all_far self E P query reverse search_dir blocked (d ^ 2) _ [] h]
  rfl

/-- C2: if every segment the range search can deliver during the five attempts
has a squared distance from the query point above `(r * 2 ^ 4) ^ 2` (for a
radius `r ≥ 0`: a distance above `r * 2 ^ 4`), then `match` with initial radius
`r` returns the empty list, after exactly five calls of `get_way_candidates`
(at the radii `r, 2r, 4r, 8r, 16r`). -/
theorem match_far_point_empty (self : lookup R) (E : externals R) (P : profile)
    (query : location R) (reverse : Bool) (search_dir : direction) (r : R)
    (blocked : Option (node_idx_t → Bool))
    (hfar : ∀ k, k ≤ 4 → ∀ way ∈ self.rtree_search (E.box_around query.pos_ (r * 2 ^ k)),
      (r * 2 ^ 4) ^ 2 < (self.projection E query way).1) :
    self.match_ E P query reverse search_dir r blocked = some [] ∧
    self.match_calls E P query reverse search_dir r blocked
      = some ((List.range 5).map (fun j => r * 2 ^ j)) ∧
    (self.match_calls E P query reverse search_dir r blocked).map List.length = some 5 := by
  have hg : ∀ k, k ≤ 4 →
      self.get_way_candidates E P query reverse search_dir (r * 2 ^ k) blocked = some [] := by
    intro k hk
    apply get_way_candidates_all_far
    intro way hway
    have h1 := hfar k hk way hway
    have h2 : (r * 2 ^ k) ^ 2 ≤ (r * 2 ^ 4) ^ 2 := by
      interval_cases k <;> nlinarith [sq_nonneg r]
    exact not_lt.mpr (le_trans h2 (le_of_lt h1))
  obtain ⟨k, hk4, _, hne, hres, hcalls⟩ :=
    widening_cases (fun d => self.get_way_candidates E P query reverse search_dir d blocked) r
      (self.match_run E P query reverse search_dir r blocked)
      (match_run_unfold self E P query reverse search_dir r blocked)
  have hk : k = 4 := by
    by_contra hk
    exact hne (by omega) (hg k hk4)
  subst hk
  have hres2 : self.match_ E P query reverse search_dir r blocked = some [] := by
    unfold lookup.match_
    rw [hres]
    exact hg 4 (le_refl 4)
  have hcalls2 : self.match_calls E P query reverse search_dir r blocked
      = some ((List.range 5).map (fun j => r * 2 ^ j)) := by
    unfold lookup.match_calls
    rw [hcalls]
    simp only [hg 4 (le_refl 4), Option.map_some']
  refine ⟨hres2, hcalls2, ?_⟩
  rw [hcalls2]
  simp

/-- C3: if the assembler yields the empty list at radius `r` and a list with at
least one candidate at radius `2 * r`, then `match` with initial radius `r`
returns the same list as `match` with initial radius `2 * r`, namely the list
the assembler yields at radius `2 * r`. -/
theorem match_doubling (self : lookup R) (E : externals R) (P : profile)
    (query : location R) (reverse : Bool) (search_dir : direction) (r : R)
    (blocked : Option (node_idx_t → Bool))
    (h1 : self.get_way_candidates E P query reverse search_dir r blocked = some [])
    (h2 : (self.get_way_candidates E P query reverse search_dir (2 * r) blocked).map
      List.isEmpty = some false) :
    self.match_ E P query reverse search_dir r blocked
      = self.match_ E P query reverse search_dir (2 * r) blocked ∧
    self.match_ E P query reverse search_dir r blocked
      = self.get_way_candidates E P query reverse search_dir (2 * r) blocked := by
  have h2r : (2 : R) * r = r * 2 := mul_comm _ _
  rw [h2r] at h2 ⊢
  cases hg : self.get_way_candidates E P query reverse search_dir (r * 2) blocked with
  | none => rw [hg] at h2; simp at h2
  | some l =>
    cases l with
    | nil => rw [hg] at h2; simp at h2
    | cons x xs =>
      have ha := match_run_unfold self E P query reverse search_dir r blocked
      have hb := match_run_unfold self E P query reverse search_dir (r * 2) blocked
      rw [h1] at ha
      simp only [hg] at ha hb
      unfold lookup.match_
      rw [ha, hb]
      simp

end

/-- A point inside the bounding box of way 3 but 90 units from its polyline is
not matched with initial radius 5: five attempts, all empty. -/
theorem match_far_point_empty_witness :
    (3 : way_idx_t) ∈ sample_lookup.rtree_search
      (sample_externals.box_around (⟨190, 110⟩ : latlng ℤ) 5) ∧
    (∀ k, k ≤ 4 → ∀ way ∈ sample_lookup.rtree_search
        (sample_externals.box_around (⟨190, 110⟩ : latlng ℤ) (5 * 2 ^ k)),
      ((5 : ℤ) * 2 ^ 4) ^ 2
        < (sample_lookup.projection sample_externals ⟨⟨190, 110⟩, 0⟩ way).1) ∧
    sample_lookup.match_ sample_externals sample_profile ⟨⟨190, 110⟩, 0⟩ false
      direction.kForward 5 none = some [] ∧
    sample_lookup.match_calls sample_externals sample_profile ⟨⟨190, 110⟩, 0⟩ false
      direction.kForward 5 none = some [5, 10, 20, 40, 80] :=
  ⟨by decide, by decide,
   (match_far_point_empty sample_lookup sample_externals sample_profile ⟨⟨190, 110⟩, 0⟩ false
      direction.kForward 5 none (by decide)).1,
   (match_far_point_empty sample_lookup sample_externals sample_profile ⟨⟨190, 110⟩, 0⟩ false
      direction.kForward 5 none (by decide)).2.1⟩

/-- Around the sample query the assembler finds nothing at radius 2 and two
segments at radius 4, so `match` gives the same list for both initial radii. -/
theorem match_doubling_witness :
    sample_lookup.get_way_candidates sample_externals sample_profile sample_query false
      direction.kForward 2 none = some [] ∧
    (sample_lookup.match_ sample_externals sample_profile sample_query false
      direction.kForward 2 none).map List.length = some 2 ∧
    sample_lookup.match_ sample_externals sample_profile sample_query false
      direction.kForward 2 none
      = sample_lookup.match_ sample_externals sample_profile sample_query false
          direction.kForward (2 * 2) none :=
  ⟨by decide, by decide,
   (match_doubling sample_lookup sample_externals sample_profile sample_query false
      direction.kForward 2 none (by decide) (by decide)).1⟩

/-! ## The walk of find_next_node -/

section
variable {R : Type} [LinearOrderedCommRing R]

/-- The walk of `find_next_node` in closed form. -/
theorem walk_visit_eq (self : lookup R) (E : externals R) (P : profile)
    (way_prop : way_properties) (search_dir edge_dir : direction)
    (blocked : Option (node_idx_t → Bool)) (lng : R) :
    ∀ (vs : List (latlng R × osm_node_idx_t)) (c : node_candidate R) (last : latlng R),
      c.path_.getLast? = some last →
      walk (self.find_next_node_visit E P way_prop search_dir edge_dir blocked lng) vs c
        = some (self.walked E P way_prop (E.flip search_dir edge_dir) blocked lng c last vs) := by
  intro vs
  induction vs with
  | nil =>
    intro c last _
    obtain ⟨lvl, wd, node, dist, cost, off, path⟩ := c
    simp [walk, lookup.walked, lookup.visited, hop_lengths, hop_costs, cost_sum]
  | cons x xs ih =>
    intro c last hlast
    obtain ⟨lvl, wd, node, dist, cost, off, path⟩ := c
    simp only at hlast
    simp only [walk, lookup.find_next_node_visit, hlast]
    cases hnode : self.ways_.find_node_idx x.2 with
    | none =>
      simp only []
      rw [ih _ x.1 (by simp)]
      simp [lookup.walked, lookup.visited, lookup.usable_node, hnode, hop_lengths, hop_costs,
        cost_sum, add_assoc]
    | some n =>
      by_cases hb : not_blocked blocked n = true
      · simp [lookup.walked, lookup.visited, lookup.usable_node, hnode, hb, hop_lengths,
          hop_costs, cost_sum]
      · simp only [if_neg hb]
        rw [ih _ x.1 (by simp)]
        simp [lookup.walked, lookup.visited, lookup.usable_node, hnode, hb, hop_lengths,
          hop_costs, cost_sum, add_assoc]

/-- An infeasible initial hop: `find_next_node` returns `node_candidate{}`. -/
theorem find_next_node_infeasible (self : lookup R) (E : externals R) (P : profile)
    (wc : way_candidate R) (q : location R) (dir : direction) (lvl : level_t) (reverse : Bool)
    (search_dir : direction) (blocked : Option (node_idx_t → Bool)) (lng : R)
    (h : self.offroad_cost E P wc dir reverse search_dir = E.kInfeasible) :
    self.find_next_node E P wc q dir lvl reverse search_dir blocked lng
      = some (node_candidate.init E) := by
  unfold lookup.offroad_cost effective_dir at h
  unfold lookup.find_next_node
  simp only [h, if_true]

/-- A feasible initial hop from a projection index inside the way:
`find_next_node` in closed form. -/
theorem find_next_node_eq (self : lookup R) (E : externals R) (P : profile)
    (wc : way_candidate R) (q : location R) (dir : direction) (lvl : level_t) (reverse : Bool)
    (search_dir : direction) (blocked : Option (node_idx_t → Bool)) (lng : R)
    (hfeas : self.offroad_cost E P wc dir reverse search_dir ≠ E.kInfeasible)
    (hidx : wc.segment_idx_ < (self.vertices wc).length) :
    self.find_next_node E P wc q dir lvl reverse search_dir blocked lng
      = some (finish reverse
          (self.walked E P (self.ways_.way_properties_ wc.way_)
            (effective_dir E dir reverse search_dir) blocked lng
            (self.start_candidate E P wc dir lvl reverse search_dir) wc.best_
            (self.side wc dir))) := by
  unfold lookup.offroad_cost effective_dir at hfeas
  unfold lookup.vertices at hidx
  unfold lookup.find_next_node
  simp only [if_neg hfeas]
  have hstart : (wc.segment_idx_ + (if dir = direction.kForward then 1 else 0))
      + (if dir = direction.kForward then 0 else 1)
      ≤ (List.zip (self.ways_.way_polylines_ wc.way_)
          (self.ways_.way_osm_nodes_ wc.way_)).length := by
    by_cases hd : dir = direction.kForward
    · simp only [hd, if_true]; omega
    · simp only [hd, if_false]; omega
  rw [till_the_end_eq_walk _ _ _ _ _ hstart]
  rw [walk_visit_eq self E P _ search_dir _ blocked lng _ _ wc.best_ (by simp)]
  rfl

/-- A defined result of `till_the_end` means that the start index was inside
the collection (at most its size for a forward walk). -/
theorem till_the_end_some_in_range {α σ : Type} (start : Nat) (coll : List α)
    (dir : direction) (fn : σ → α → Option (cflow × σ)) (s s' : σ)
    (h : till_the_end start coll dir fn s = some s') :
    start + (if dir = direction.kForward then 0 else 1) ≤ coll.length := by
  by_contra hlen
  unfold till_the_end at h
  by_cases hd : dir = direction.kForward
  · simp only [hd, if_true] at h hlen
    have hne : ¬ start = coll.length := by omega
    have hnone : coll[start]? = none := List.getElem?_eq_none (by omega)
    simp [till_the_end_forward, hne, hnone] at h
  · simp only [hd, if_false] at h hlen
    have hnone : coll[start]? = none := List.getElem?_eq_none (by omega)
    simp [till_the_end_backward, hnone] at h

/-- A valid result of `find_next_node` comes from a feasible initial hop and a
projection index inside the way. -/
theorem find_next_node_valid_inv (self : lookup R) (E : externals R) (P : profile)
    (wc : way_candidate R) (q : location R) (dir : direction) (lvl : level_t) (reverse : Bool)
    (search_dir : direction) (blocked : Option (node_idx_t → Bool)) (lng : R)
    (c : node_candidate R)
    (h : self.find_next_node E P wc q dir lvl reverse search_dir blocked lng = some c)
    (hv : c.valid E = true) :
    self.offroad_cost E P wc dir reverse search_dir ≠ E.kInfeasible ∧
    wc.segment_idx_ < (self.vertices wc).length := by
  have hfeas : self.offroad_cost E P wc dir reverse search_dir ≠ E.kInfeasible := by
    intro hinf
    rw [find_next_node_infeasible self E P wc q dir lvl reverse search_dir blocked lng hinf] at h
    have hc : c = node_candidate.init E := (Option.some.inj h).symm
    rw [hc] at hv
    simp [node_candidate.valid, node_candidate.init] at hv
  refine ⟨hfeas, ?_⟩
  unfold lookup.offroad_cost effective_dir at hfeas
  unfold lookup.find_next_node at h
  simp only [if_neg hfeas] at h
  unfold lookup.vertices
  cases ht : till_the_end (wc.segment_idx_ + (if dir = direction.kForward then 1 else 0))
      (List.zip (self.ways_.way_polylines_ wc.way_) (self.ways_.way_osm_nodes_ wc.way_)) dir
      (self.find_next_node_visit E P (self.ways_.way_properties_ wc.way_) search_dir
        (if reverse = true then E.opposite dir else dir) blocked lng)
      { lvl_ := lvl, way_dir_ := dir, node_ := E.node_invalid,
        dist_to_node_ := wc.dist_to_way_,
        cost_ := P.way_cost (self.ways_.way_properties_ wc.way_)
          (E.flip search_dir (if reverse = true then E.opposite dir else dir))
          (E.to_distance_t wc.dist_to_way_),
        offroad_cost_ := P.way_cost (self.ways_.way_properties_ wc.way_)
          (E.flip search_dir (if reverse = true then E.opposite dir else dir))
          (E.to_distance_t wc.dist_to_way_),
        path_ := [wc.best_] } with
  | none => rw [ht] at h; simp at h
  | some c1 =>
    have hr := till_the_end_some_in_range _ _ _ _ _ _ ht
    generalize List.zip (self.ways_.way_polylines_ wc.way_)
      (self.ways_.way_osm_nodes_ wc.way_) = vs at hr ⊢
    by_cases hd : dir = direction.kForward
    · simp only [hd, if_true] at hr; omega
    · simp only [hd, if_false] at hr; omega

/-- The result of `find_next_node` does not depend on the node candidates
already stored in the way candidate, nor on its query. -/
theorem find_next_node_congr (self : lookup R) (E : externals R) (P : profile)
    (wc wc' : way_candidate R) (q : location R) (dir : direction) (lvl : level_t)
    (reverse : Bool) (search_dir : direction) (blocked : Option (node_idx_t → Bool)) (lng : R)
    (h1 : wc'.dist_to_way_ = wc.dist_to_way_) (h2 : wc'.best_ = wc.best_)
    (h3 : wc'.segment_idx_ = wc.segment_idx_) (h4 : wc'.way_ = wc.way_) :
    self.find_next_node E P wc' q dir lvl reverse search_dir blocked lng
      = self.find_next_node E P wc q dir lvl reverse search_dir blocked lng := by
  unfold lookup.find_next_node
  rw [h1, h2, h3, h4]

omit [LinearOrderedCommRing R] in
theorem finish_cost (reverse : Bool) (c : node_candidate R) :
    (finish reverse c).cost_ = c.cost_ := by
  unfold finish; split <;> rfl

omit [LinearOrderedCommRing R] in
theorem finish_dist (reverse : Bool) (c : node_candidate R) :
    (finish reverse c).dist_to_node_ = c.dist_to_node_ := by
  unfold finish; split <;> rfl

omit [LinearOrderedCommRing R] in
theorem finish_offroad (reverse : Bool) (c : node_candidate R) :
    (finish reverse c).offroad_cost_ = c.offroad_cost_ := by
  unfold finish; split <;> rfl

theorem cost_sum_eq_of_fit (bits : Nat) :
    ∀ (xs : List Nat) (c : Nat), c + xs.sum < 2 ^ bits →
      cost_sum bits c xs = c + xs.sum := by
  intro xs
  induction xs with
  | nil => intro c _; simp [cost_sum]
  | cons x xs ih =>
    intro c h
    simp only [List.sum_cons] at h
    have h0 : c + x < 2 ^ bits := lt_of_le_of_lt (by omega) h
    have h1 : (c + x) % 2 ^ bits = c + x := Nat.mod_eq_of_lt h0
    have h2 := ih (c + x) (by rw [Nat.add_assoc]; exact h)
    unfold cost_sum at h2 ⊢
    simp only [List.foldl_cons, h1, h2, List.sum_cons, Nat.add_assoc]

omit [LinearOrderedCommRing R] in
/-- The vertices visited without a mask are the first ones of those visited
with a mask. -/
theorem visited_mask_extends (self : lookup R) (b : node_idx_t → Bool) :
    ∀ vs : List (latlng R × osm_node_idx_t),
      ∃ t, self.visited (some b) vs = self.visited none vs ++ t := by
  intro vs
  induction vs with
  | nil => exact ⟨[], rfl⟩
  | cons x xs ih =>
    obtain ⟨t, ht⟩ := ih
    cases hnode : self.ways_.find_node_idx x.2 with
    | none =>
      exact ⟨t, by simp [lookup.visited, lookup.usable_node, hnode, ht]⟩
    | some n =>
      by_cases hb : b n = true
      · exact ⟨self.visited (some b) xs,
          by simp [lookup.visited, lookup.usable_node, hnode, not_blocked, hb]⟩
      · exact ⟨[], by simp [lookup.visited, lookup.usable_node, hnode, not_blocked, hb]⟩

omit [LinearOrderedCommRing R] in
theorem hop_lengths_append (E : externals R) (lng : R) :
    ∀ (p : List (latlng R)) (a : latlng R) (t : List (latlng R)),
      ∃ u, hop_lengths E lng (a :: (p ++ t)) = hop_lengths E lng (a :: p) ++ u := by
  intro p
  induction p with
  | nil => intro a t; exact ⟨hop_lengths E lng (a :: t), by simp [hop_lengths]⟩
  | cons b p ih =>
    intro a t
    obtain ⟨u, hu⟩ := ih b t
    refine ⟨u, ?_⟩
    show E.sqrt (E.approx_squared_distance a b lng) :: hop_lengths E lng (b :: (p ++ t))
      = E.sqrt (E.approx_squared_distance a b lng) :: hop_lengths E lng (b :: p) ++ u
    rw [hu]
    rfl

theorem hop_lengths_nonneg (E : externals R) (lng : R) (hsqrt : ∀ x, 0 ≤ E.sqrt x) :
    ∀ (path : List (latlng R)) (x : R), x ∈ hop_lengths E lng path → 0 ≤ x := by
  intro path
  induction path with
  | nil => intro x hx; simp [hop_lengths] at hx
  | cons a rest ih =>
    intro x hx
    cases rest with
    | nil => simp [hop_lengths] at hx
    | cons b rest =>
      simp only [hop_lengths, List.mem_cons] at hx
      rcases hx with rfl | hx
      · exact hsqrt _
      · exact ih x hx

omit [LinearOrderedCommRing R] in
theorem finish_unreversed_path (reverse : Bool) (c : node_candidate R) :
    (if reverse = true then (finish reverse c).path_.reverse else (finish reverse c).path_)
      = c.path_ := by
  cases reverse <;> simp [finish]

/-- C6, as amended: if `find_next_node` returns a valid candidate with the
exclusion mask `b`, and the offroad cost plus the profile costs of the hops of
its path fit into `cost_t` (their sum is below `2 ^ cost_bits`), then the
`cost_` of that candidate is at least the `cost_` of the candidate returned
without a mask; its `dist_to_node_` is at least that of the candidate returned
without a mask whenever the square root has no negative values. -/
theorem exclusion_cost_monotone_amended (self : lookup R) (E : externals R) (P : profile)
    (wc : way_candidate R) (q : location R) (dir : direction) (lvl : level_t) (reverse : Bool)
    (search_dir : direction) (b : node_idx_t → Bool) (lng : R) (cB cN : node_candidate R)
    (hB : self.find_next_node E P wc q dir lvl reverse search_dir (some b) lng = some cB)
    (hN : self.find_next_node E P wc q dir lvl reverse search_dir none lng = some cN)
    (hvB : cB.valid E = true) :
    (cB.offroad_cost_ + (hop_costs E P (self.ways_.way_properties_ wc.way_)
        (effective_dir E dir reverse search_dir) lng
        (if reverse = true then cB.path_.reverse else cB.path_)).sum < 2 ^ E.cost_bits →
      cN.cost_ ≤ cB.cost_) ∧
    ((∀ x, 0 ≤ E.sqrt x) → cN.dist_to_node_ ≤ cB.dist_to_node_) := by
  obtain ⟨hfeas, hidx⟩ :=
    find_next_node_valid_inv self E P wc q dir lvl reverse search_dir (some b) lng cB hB hvB
  rw [find_next_node_eq self E P wc q dir lvl reverse search_dir (some b) lng hfeas hidx] at hB
  rw [find_next_node_eq self E P wc q dir lvl reverse search_dir none lng hfeas hidx] at hN
  have hB' := (Option.some.inj hB).symm
  have hN' := (Option.some.inj hN).symm
  subst hB' hN'
  obtain ⟨t, ht⟩ := visited_mask_extends self b (self.side wc dir)
  obtain ⟨u, hu⟩ := hop_lengths_append E lng ((self.visited none (self.side wc dir)).map Prod.fst)
    wc.best_ (t.map Prod.fst)
  have hpath : wc.best_ :: (self.visited (some b) (self.side wc dir)).map Prod.fst
      = wc.best_ :: ((self.visited none (self.side wc dir)).map Prod.fst ++ t.map Prod.fst) := by
    rw [ht, List.map_append]
  constructor
  · intro hfit
    rw [finish_unreversed_path, finish_offroad] at hfit
    simp only [lookup.walked, lookup.start_candidate, List.singleton_append] at hfit
    simp only [finish_cost, lookup.walked, lookup.start_candidate]
    rw [hpath] at hfit ⊢
    simp only [hop_costs, hu, List.map_append] at hfit ⊢
    generalize List.map (fun d => P.way_cost (self.ways_.way_properties_ wc.way_)
      (effective_dir E dir reverse search_dir) (E.to_distance_t d))
      (hop_lengths E lng (wc.best_ :: List.map Prod.fst (self.visited none (self.side wc dir))))
      = costsN at hfit ⊢
    generalize List.map (fun d => P.way_cost (self.ways_.way_properties_ wc.way_)
      (effective_dir E dir reverse search_dir) (E.to_distance_t d)) u = costsU at hfit ⊢
    have e2 := cost_sum_eq_of_fit E.cost_bits (costsN ++ costsU) _ hfit
    rw [List.sum_append] at hfit e2
    have e1 := cost_sum_eq_of_fit E.cost_bits costsN
      (self.offroad_cost E P wc dir reverse search_dir) (lt_of_le_of_lt (by omega) hfit)
    rw [e1, e2]
    exact Nat.add_le_add_left (Nat.le_add_right _ _) _
  · intro hsqrt
    simp only [finish_dist, lookup.walked, lookup.start_candidate]
    rw [hpath, hu, List.sum_append]
    have hnn : 0 ≤ u.sum := by
      apply List.sum_nonneg
      intro x hx
      apply hop_lengths_nonneg E lng hsqrt
        (wc.best_ :: ((self.visited none (self.side wc dir)).map Prod.fst ++ t.map Prod.fst)) x
      rw [hu]
      exact List.mem_append_right _ hx
    linarith

end

/-- On way 0 of the sample network, excluding node 2 moves the forward candidate
from node 2 (cost 11) to node 3 (cost 21). -/
theorem exclusion_cost_monotone_amended_witness :
    (sample_lookup.find_next_node sample_externals sample_profile
        (sample_lookup.projected sample_externals sample_query 0) sample_query
        direction.kForward 0 false direction.kForward (some (fun n => n == 2)) 1).map
      (fun c => (c.node_, c.cost_)) = some (3, 21) ∧
    (sample_lookup.find_next_node sample_externals sample_profile
        (sample_lookup.projected sample_externals sample_query 0) sample_query
        direction.kForward 0 false direction.kForward none 1).map
      (fun c => (c.node_, c.cost_)) = some (2, 11) ∧
    (11 : Nat) ≤ 21 :=
  ⟨by decide, by decide,
   (exclusion_cost_monotone_amended sample_lookup sample_externals sample_profile
     (sample_lookup.projected sample_externals sample_query 0) sample_query
     direction.kForward 0 false direction.kForward (fun n => n == 2) 1
     { lvl_ := 0, way_dir_ := direction.kForward, node_ := 3, dist_to_node_ := 21, cost_ := 21,
       offroad_cost_ := 3, path_ := [⟨0, 12⟩, ⟨0, 20⟩, ⟨0, 30⟩] }
     { lvl_ := 0, way_dir_ := direction.kForward, node_ := 2, dist_to_node_ := 11, cost_ := 11,
       offroad_cost_ := 3, path_ := [⟨0, 12⟩, ⟨0, 20⟩] }
     (by decide) (by decide) (by decide)).1 (by decide)⟩

/-- C6 fails as stated, because `cost_` is accumulated in the machine integer
`cost_t`: on way 3 of the sample network (16-bit costs, 400 cost units per
distance unit), walking forward from the point (100, 130) of the way, the
candidate without a mask is node 9 at cost 28000, and with node 9 excluded it is
node 10 at cost (28000 + 40000) mod 65536 = 2464. -/
theorem exclusion_cost_counterexample :
    (sample_lookup.find_next_node sample_externals steep_profile
        (sample_lookup.projected sample_externals ⟨⟨100, 130⟩, 0⟩ 3) ⟨⟨100, 130⟩, 0⟩
        direction.kForward 0 false direction.kForward none 1).map
      (fun c => (c.valid sample_externals, c.node_, c.cost_)) = some (true, 9, 28000) ∧
    (sample_lookup.find_next_node sample_externals steep_profile
        (sample_lookup.projected sample_externals ⟨⟨100, 130⟩, 0⟩ 3) ⟨⟨100, 130⟩, 0⟩
        direction.kForward 0 false direction.kForward (some (fun n => n == 9)) 1).map
      (fun c => (c.valid sample_externals, c.node_, c.cost_)) = some (true, 10, 2464) := by
  decide

/-! ## The assembler -/

section
variable {R : Type} [LinearOrderedCommRing R]

/-- The callback of `get_way_candidates` on a way that passes the distance
filter. -/
theorem get_way_candidates_visit_near (self : lookup R) (E : externals R) (P : profile)
    (query : location R) (reverse : Bool) (search_dir : direction)
    (blocked : Option (node_idx_t → Bool)) (squared_max_dist : R) (acc : match_t R)
    (way : way_idx_t) (h : (self.projection E query way).1 < squared_max_dist) :
    self.get_way_candidates_visit E P query reverse search_dir blocked
        (E.approx_distance_lng_degrees query.pos_) squared_max_dist acc way
      = match self.node_candidate_of E P query reverse search_dir blocked way
            direction.kBackward,
          self.node_candidate_of E P query reverse search_dir blocked way
            direction.kForward with
        | some l, some r =>
          some (if l.valid E || r.valid E then acc ++ [self.assembled E query way l r] else acc)
        | _, _ => none := by
  unfold lookup.projection at h
  unfold lookup.get_way_candidates_visit
  simp only [if_pos h]
  unfold lookup.node_candidate_of
  have hleft : ∀ l : node_candidate R,
      self.find_next_node E P
        { dist_to_way_ := E.sqrt (E.approx_squared_distance_to_polyline query.pos_
            (self.ways_.way_polylines_ way) (E.approx_distance_lng_degrees query.pos_)).1,
          best_ := (E.approx_squared_distance_to_polyline query.pos_
            (self.ways_.way_polylines_ way) (E.approx_distance_lng_degrees query.pos_)).2.1,
          segment_idx_ := (E.approx_squared_distance_to_polyline query.pos_
            (self.ways_.way_polylines_ way) (E.approx_distance_lng_degrees query.pos_)).2.2,
          query_ := query, way_ := way, left_ := l, right_ := node_candidate.init E }
        query direction.kForward query.lvl_ reverse search_dir blocked
        (E.approx_distance_lng_degrees query.pos_)
      = self.find_next_node E P (self.projected E query way) query direction.kForward
          query.lvl_ reverse search_dir blocked (E.approx_distance_lng_degrees query.pos_) :=
    fun l => find_next_node_congr self E P _ _ query direction.kForward query.lvl_ reverse
      search_dir blocked _ rfl rfl rfl rfl
  simp only [hleft]
  cases hl : self.find_next_node E P (self.projected E query way) query direction.kBackward
      query.lvl_ reverse search_dir blocked (E.approx_distance_lng_degrees query.pos_) with
  | none =>
    have hl' := hl
    unfold lookup.projected lookup.projection at hl'
    simp only [hl']
  | some l =>
    have hl' := hl
    unfold lookup.projected lookup.projection at hl'
    simp only [hl']
    cases hr : self.find_next_node E P (self.projected E query way) query direction.kForward
        query.lvl_ reverse search_dir blocked (E.approx_distance_lng_degrees query.pos_) with
    | none => rfl
    | some r =>
      by_cases hv : (l.valid E || r.valid E) = true
      · simp only [hv, if_true]; rfl
      · simp only [hv, if_false]; rfl

/-- Which candidates the fold of `find` has appended, and that every way passing
the filter had both its node candidates computed. -/
theorem find_visit_spec (self : lookup R) (E : externals R) (P : profile)
    (query : location R) (reverse : Bool) (search_dir : direction)
    (blocked : Option (node_idx_t → Bool)) (squared_max_dist : R) :
    ∀ (ws : List way_idx_t) (acc res : match_t R),
      ws.foldlM (self.get_way_candidates_visit E P query reverse search_dir blocked
        (E.approx_distance_lng_degrees query.pos_) squared_max_dist) acc = some res →
      (∀ x, x ∈ res ↔ x ∈ acc ∨ ∃ way ∈ ws,
        self.survives E P query reverse search_dir blocked squared_max_dist way x) ∧
      (∀ way ∈ ws, (self.projection E query way).1 < squared_max_dist →
        ∃ l r, self.node_candidate_of E P query reverse search_dir blocked way
            direction.kBackward = some l ∧
          self.node_candidate_of E P query reverse search_dir blocked way
            direction.kForward = some r) := by
  intro ws
  induction ws with
  | nil =>
    intro acc res h
    simp only [List.foldlM_nil] at h
    have hres : acc = res := Option.some.inj h
    subst hres
    simp
  | cons w ws ih =>
    intro acc res h
    rw [List.foldlM_cons] at h
    by_cases hnear : (self.projection E query w).1 < squared_max_dist
    · rw [get_way_candidates_visit_near self E P query reverse search_dir blocked
        squared_max_dist acc w hnear] at h
      cases hl : self.node_candidate_of E P query reverse search_dir blocked w
          direction.kBackward with
      | none => simp [hl] at h
      | some l =>
        cases hr : self.node_candidate_of E P query reverse search_dir blocked w
            direction.kForward with
        | none => simp [hl, hr] at h
        | some r =>
          simp only [hl, hr, Option.some_bind, Option.bind_eq_bind] at h
          obtain ⟨hmem, hdef⟩ := ih _ res h
          constructor
          · intro x
            rw [hmem x]
            by_cases hv : (l.valid E || r.valid E) = true
            · have hv' : l.valid E = true ∨ r.valid E = true := by simpa using hv
              simp only [hv, if_true, List.mem_append, List.mem_singleton, List.mem_cons,
                List.not_mem_nil, or_false, exists_eq_or_imp]
              constructor
              · rintro ((hx | hx) | hx)
                · exact Or.inl hx
                · exact Or.inr (Or.inl ⟨hnear, l, r, hl, hr, hv', hx⟩)
                · exact Or.inr (Or.inr hx)
              · rintro (hx | hx | hx)
                · exact Or.inl (Or.inl hx)
                · obtain ⟨_, l', r', hl', hr', _, hx⟩ := hx
                  rw [hl] at hl'
                  rw [hr] at hr'
                  rw [← Option.some.inj hl', ← Option.some.inj hr'] at hx
                  exact Or.inl (Or.inr hx)
                · exact Or.inr hx
            · have hv' : ¬ (l.valid E = true ∨ r.valid E = true) := by simpa using hv
              simp only [hv, List.mem_cons, exists_eq_or_imp]
              constructor
              · rintro (hx | hx)
                · exact Or.inl hx
                · exact Or.inr (Or.inr hx)
              · rintro (hx | hx | hx)
                · exact Or.inl hx
                · obtain ⟨_, l', r', hl', hr', hvalid, _⟩ := hx
                  rw [hl] at hl'
                  rw [hr] at hr'
                  rw [← Option.some.inj hl', ← Option.some.inj hr'] at hvalid
                  exact absurd hvalid hv'
                · exact Or.inr hx
          · intro way hway hsq
            rcases List.mem_cons.mp hway with rfl | hway
            · exact ⟨l, r, hl, hr⟩
            · exact hdef way hway hsq
    · rw [get_way_candidates_visit_far self E P query reverse search_dir blocked
        squared_max_dist acc w hnear] at h
      simp only [Option.some_bind, Option.bind_eq_bind] at h
      obtain ⟨hmem, hdef⟩ := ih _ res h
      constructor
      · intro x
        rw [hmem x]
        simp only [List.mem_cons, exists_eq_or_imp]
        constructor
        · rintro (hx | hx)
          · exact Or.inl hx
          · exact Or.inr (Or.inr hx)
        · rintro (hx | hx | hx)
          · exact Or.inl hx
          · exact absurd hx.1 hnear
          · exact Or.inr hx
      · intro way hway hsq
        rcases List.mem_cons.mp hway with rfl | hway
        · exact absurd hsq hnear
        · exact hdef way hway hsq

theorem sort_perm (l : match_t R) : (sort l).Perm l :=
  List.perm_insertionSort _ l

theorem sort_sorted (l : match_t R) :
    (sort l).Pairwise (fun a b => a.dist_to_way_ ≤ b.dist_to_way_) := by
  have htotal : IsTotal (way_candidate R) (fun a b => way_candidate.lt b a = false) :=
    ⟨fun a b => by
      simp only [way_candidate.lt, decide_eq_false_iff_not, not_lt]
      exact le_total _ _⟩
  have htrans : IsTrans (way_candidate R) (fun a b => way_candidate.lt b a = false) :=
    ⟨fun a b c hab hbc => by
      simp only [way_candidate.lt, decide_eq_false_iff_not, not_lt] at hab hbc ⊢
      exact le_trans hab hbc⟩
  have h := List.sorted_insertionSort (fun a b : way_candidate R => way_candidate.lt b a = false) l
  refine List.Pairwise.imp ?_ h
  intro a b hab
  simpa [way_candidate.lt] using hab

/-- The list returned by `get_way_candidates` is the sorted list of the
candidates collected by `find`. -/
theorem get_way_candidates_some (self : lookup R) (E : externals R) (P : profile)
    (query : location R) (reverse : Bool) (search_dir : direction) (d : R)
    (blocked : Option (node_idx_t → Bool)) (l : match_t R)
    (h : self.get_way_candidates E P query reverse search_dir d blocked = some l) :
    ∃ survivors,
      self.find (E.box_around query.pos_ d)
        (self.get_way_candidates_visit E P query reverse search_dir blocked
          (E.approx_distance_lng_degrees query.pos_) (d ^ 2)) [] = some survivors ∧
      l = sort survivors := by
  unfold lookup.get_way_candidates at h
  simp only [] at h
  cases hf : self.find (E.box_around query.pos_ d)
      (self.get_way_candidates_visit E P query reverse search_dir blocked
        (E.approx_distance_lng_degrees query.pos_) (d ^ 2)) [] with
  | none => rw [hf] at h; simp at h
  | some survivors =>
    rw [hf] at h
    exact ⟨survivors, rfl, (Option.some.inj h).symm⟩

/-- Membership in the list returned by `get_way_candidates`. -/
theorem get_way_candidates_mem (self : lookup R) (E : externals R) (P : profile)
    (query : location R) (reverse : Bool) (search_dir : direction) (d : R)
    (blocked : Option (node_idx_t → Bool)) (l : match_t R)
    (h : self.get_way_candidates E P query reverse search_dir d blocked = some l)
    (x : way_candidate R) :
    x ∈ l ↔ ∃ way ∈ self.rtree_search (E.box_around query.pos_ d),
      self.survives E P query reverse search_dir blocked (d ^ 2) way x := by
  obtain ⟨survivors, hf, rfl⟩ := get_way_candidates_some self E P query reverse search_dir d
    blocked l h
  unfold lookup.find at hf
  have hspec := (find_visit_spec self E P query reverse search_dir blocked (d ^ 2) _ [] _ hf).1 x
  rw [(sort_perm survivors).mem_iff, hspec]
  simp

/-- For every way passing the filter, a defined result of `get_way_candidates`
means that both node candidates were computed. -/
theorem get_way_candidates_computed (self : lookup R) (E : externals R) (P : profile)
    (query : location R) (reverse : Bool) (search_dir : direction) (d : R)
    (blocked : Option (node_idx_t → Bool)) (l : match_t R)
    (h : self.get_way_candidates E P query reverse search_dir d blocked = some l)
    (way : way_idx_t) (hway : way ∈ self.rtree_search (E.box_around query.pos_ d))
    (hsq : (self.projection E query way).1 < d ^ 2) :
    ∃ cl cr, self.node_candidate_of E P query reverse search_dir blocked way
        direction.kBackward = some cl ∧
      self.node_candidate_of E P query reverse search_dir blocked way
        direction.kForward = some cr := by
  obtain ⟨survivors, hf, _⟩ := get_way_candidates_some self E P query reverse search_dir d
    blocked l h
  unfold lookup.find at hf
  exact (find_visit_spec self E P query reverse search_dir blocked (d ^ 2) _ [] _ hf).2 way
    hway hsq

/-- With a projection index inside the way, `find_next_node` has a result. -/
theorem find_next_node_defined (self : lookup R) (E : externals R) (P : profile)
    (wc : way_candidate R) (q : location R) (dir : direction) (lvl : level_t) (reverse : Bool)
    (search_dir : direction) (blocked : Option (node_idx_t → Bool)) (lng : R)
    (hidx : wc.segment_idx_ < (self.vertices wc).length) :
    ∃ c, self.find_next_node E P wc q dir lvl reverse search_dir blocked lng = some c := by
  by_cases hfeas : self.offroad_cost E P wc dir reverse search_dir = E.kInfeasible
  · exact ⟨_, find_next_node_infeasible self E P wc q dir lvl reverse search_dir blocked lng
      hfeas⟩
  · exact ⟨_, find_next_node_eq self E P wc q dir lvl reverse search_dir blocked lng hfeas hidx⟩

/-- A list returned by `match` is the list of one of the five attempts. -/
theorem match_eq_attempt (self : lookup R) (E : externals R) (P : profile)
    (query : location R) (reverse : Bool) (search_dir : direction) (r : R)
    (blocked : Option (node_idx_t → Bool)) (l : match_t R)
    (h : self.match_ E P query reverse search_dir r blocked = some l) :
    ∃ k, k ≤ 4 ∧
      self.get_way_candidates E P query reverse search_dir (r * 2 ^ k) blocked = some l := by
  obtain ⟨k, hk, _, _, hres, _⟩ :=
    widening_cases (fun d => self.get_way_candidates E P query reverse search_dir d blocked) r
      (self.match_run E P query reverse search_dir r blocked)
      (match_run_unfold self E P query reverse search_dir r blocked)
  refine ⟨k, hk, ?_⟩
  unfold lookup.match_ at h
  rw [hres] at h
  exact h

/-- C7: when the profile returns `kInfeasible` for the initial hop of one
direction `dir` of a way, (1) the node candidate computed for that direction is
`node_candidate{}`, whatever the polyline: (2) an invalid node, an empty path,
distance 0 and cost 0; (3) the node candidate of either direction does not
depend on what has been stored as `left_` before; and (4) if the candidate `c`
of the opposite direction is valid and the way passes the distance filter, the
list returned by `get_way_candidates` contains the way candidate made of
`node_candidate{}` on the side of `dir` and `c` on the other side. -/
theorem infeasible_initial_hop (self : lookup R) (E : externals R) (P : profile)
    (query : location R) (reverse : Bool) (search_dir : direction) (d : R)
    (blocked : Option (node_idx_t → Bool)) (way : way_idx_t) (dir : direction)
    (hinf : self.offroad_cost E P (self.projected E query way) dir reverse search_dir
      = E.kInfeasible) :
    self.node_candidate_of E P query reverse search_dir blocked way dir
      = some (node_candidate.init E) ∧
    ((node_candidate.init E).valid E = false ∧ (node_candidate.init E).path_ = [] ∧
      (node_candidate.init E).dist_to_node_ = 0 ∧ (node_candidate.init E).cost_ = 0) ∧
    (∀ c dir', self.find_next_node E P { self.projected E query way with left_ := c } query
        dir' query.lvl_ reverse search_dir blocked (E.approx_distance_lng_degrees query.pos_)
      = self.node_candidate_of E P query reverse search_dir blocked way dir') ∧
    (∀ l c, self.get_way_candidates E P query reverse search_dir d blocked = some l →
      way ∈ self.rtree_search (E.box_around query.pos_ d) →
      (self.projection E query way).1 < d ^ 2 →
      self.node_candidate_of E P query reverse search_dir blocked way
        (if dir = direction.kBackward then direction.kForward else direction.kBackward)
        = some c →
      c.valid E = true →
      (if dir = direction.kBackward then self.assembled E query way (node_candidate.init E) c
        else self.assembled E query way c (node_candidate.init E)) ∈ l) := by
  have h1 : self.node_candidate_of E P query reverse search_dir blocked way dir
      = some (node_candidate.init E) :=
    find_next_node_infeasible self E P _ query dir query.lvl_ reverse search_dir blocked _ hinf
  refine ⟨h1, ?_, ?_, ?_⟩
  · simp [node_candidate.valid, node_candidate.init]
  · intro c dir'
    exact find_next_node_congr self E P _ _ query dir' query.lvl_ reverse search_dir blocked _
      rfl rfl rfl rfl
  · intro l c hg hway hsq hc hv
    rw [get_way_candidates_mem self E P query reverse search_dir d blocked l hg]
    refine ⟨way, hway, hsq, ?_⟩
    cases dir with
    | kForward =>
      simp only [reduceCtorEq, if_false] at hc ⊢
      exact ⟨c, node_candidate.init E, hc, h1, Or.inl hv, rfl⟩
    | kBackward =>
      simp only [if_true] at hc ⊢
      exact ⟨node_candidate.init E, c, h1, hc, Or.inr hv, rfl⟩

/-- C8: in a list returned by `get_way_candidates`, for a way delivered by the
range search whose squared projection distance is below the squared radius,
both node candidates have been computed and the way candidate built from them
is in the list if and only if one of them is valid; every element of the list
has a valid `left_` or a valid `right_`; and so has every element of a list
returned by `match`. -/
theorem survival_rule (self : lookup R) (E : externals R) (P : profile)
    (query : location R) (reverse : Bool) (search_dir : direction) (d : R)
    (blocked : Option (node_idx_t → Bool)) (l : match_t R)
    (hg : self.get_way_candidates E P query reverse search_dir d blocked = some l) :
    (∀ way ∈ self.rtree_search (E.box_around query.pos_ d),
      (self.projection E query way).1 < d ^ 2 →
      ∃ cl cr,
        self.node_candidate_of E P query reverse search_dir blocked way direction.kBackward
          = some cl ∧
        self.node_candidate_of E P query reverse search_dir blocked way direction.kForward
          = some cr ∧
        (self.assembled E query way cl cr ∈ l ↔ (cl.valid E = true ∨ cr.valid E = true))) ∧
    (∀ x ∈ l, x.left_.valid E = true ∨ x.right_.valid E = true) ∧
    (∀ r lm, self.match_ E P query reverse search_dir r blocked = some lm →
      ∀ x ∈ lm, x.left_.valid E = true ∨ x.right_.valid E = true) := by
  have hall : ∀ (d' : R) (l' : match_t R),
      self.get_way_candidates E P query reverse search_dir d' blocked = some l' →
      ∀ x ∈ l', x.left_.valid E = true ∨ x.right_.valid E = true := by
    intro d' l' hg' x hx
    obtain ⟨way, _, _, cl, cr, _, _, hv, rfl⟩ :=
      (get_way_candidates_mem self E P query reverse search_dir d' blocked l' hg' x).mp hx
    exact hv
  refine ⟨?_, hall d l hg, ?_⟩
  · intro way hway hsq
    obtain ⟨cl, cr, hl, hr⟩ := get_way_candidates_computed self E P query reverse search_dir d
      blocked l hg way hway hsq
    refine ⟨cl, cr, hl, hr, ?_⟩
    rw [get_way_candidates_mem self E P query reverse search_dir d blocked l hg]
    constructor
    · rintro ⟨way', _, _, cl', cr', hl', hr', hv, hx⟩
      have hw : way = way' := congrArg way_candidate.way_ hx
      subst hw
      have h1 : cl = cl' := congrArg way_candidate.left_ hx
      have h2 : cr = cr' := congrArg way_candidate.right_ hx
      rw [h1, h2]
      exact hv
    · intro hv
      exact ⟨way, hway, hsq, cl, cr, hl, hr, hv, rfl⟩
  · intro r lm hm x hx
    obtain ⟨k, _, hk⟩ := match_eq_attempt self E P query reverse search_dir r blocked lm hm
    exact hall _ lm hk x hx

/-- C9: a list returned by `get_way_candidates` is non-decreasing in
`dist_to_way_` and is a permutation of the candidates collected by the range
search (those that survived); a list returned by `match` is non-decreasing in
`dist_to_way_` as well. -/
theorem candidates_sorted (self : lookup R) (E : externals R) (P : profile)
    (query : location R) (reverse : Bool) (search_dir : direction) (d : R)
    (blocked : Option (node_idx_t → Bool)) (l : match_t R)
    (hg : self.get_way_candidates E P query reverse search_dir d blocked = some l) :
    l.Pairwise (fun a b => a.dist_to_way_ ≤ b.dist_to_way_) ∧
    (∃ survivors,
      self.find (E.box_around query.pos_ d)
        (self.get_way_candidates_visit E P query reverse search_dir blocked
          (E.approx_distance_lng_degrees query.pos_) (d ^ 2)) [] = some survivors ∧
      l.Perm survivors) ∧
    (∀ r lm, self.match_ E P query reverse search_dir r blocked = some lm →
      lm.Pairwise (fun a b => a.dist_to_way_ ≤ b.dist_to_way_)) := by
  refine ⟨?_, ?_, ?_⟩
  · obtain ⟨survivors, _, rfl⟩ := get_way_candidates_some self E P query reverse search_dir d
      blocked l hg
    exact sort_sorted survivors
  · obtain ⟨survivors, hf, rfl⟩ := get_way_candidates_some self E P query reverse search_dir d
      blocked l hg
    exact ⟨survivors, hf, sort_perm survivors⟩
  · intro r lm hm
    obtain ⟨k, _, hk⟩ := match_eq_attempt self E P query reverse search_dir r blocked lm hm
    obtain ⟨survivors, _, rfl⟩ := get_way_candidates_some self E P query reverse search_dir _
      blocked lm hk
    exact sort_sorted survivors

end

theorem isqrt_nonneg (x : ℤ) : 0 ≤ isqrt x :=
  Int.ofNat_nonneg _

/-- On the one-way way 1 of the sample network the backward hop is infeasible;
the way candidate with `node_candidate{}` as `left_` and the forward candidate
as `right_` is in the list returned at radius 4. -/
theorem infeasible_initial_hop_witness :
    sample_lookup.offroad_cost sample_externals sample_profile
        (sample_lookup.projected sample_externals sample_query 1) direction.kBackward false
        direction.kForward = sample_externals.kInfeasible ∧
    sample_lookup.assembled sample_externals sample_query 1
        (node_candidate.init sample_externals)
        ((sample_lookup.node_candidate_of sample_externals sample_profile sample_query false
          direction.kForward none 1 direction.kForward).getD
          (node_candidate.init sample_externals))
      ∈ (sample_lookup.get_way_candidates sample_externals sample_profile sample_query false
          direction.kForward 4 none).getD [] :=
  ⟨by decide,
   (infeasible_initial_hop sample_lookup sample_externals sample_profile sample_query false
      direction.kForward 4 none 1 direction.kBackward (by decide)).2.2.2
      ((sample_lookup.get_way_candidates sample_externals sample_profile sample_query false
          direction.kForward 4 none).getD [])
      ((sample_lookup.node_candidate_of sample_externals sample_profile sample_query false
          direction.kForward none 1 direction.kForward).getD
          (node_candidate.init sample_externals))
      (by decide) (by decide) (by decide) (by decide) (by decide)⟩

/-- At radius 4 around the sample query, way 0 passes the filter and its way
candidate is in the returned list exactly if a node candidate is valid. -/
theorem survival_rule_witness :
    sample_lookup.get_way_candidates sample_externals sample_profile sample_query false
        direction.kForward 4 none
      = some ((sample_lookup.get_way_candidates sample_externals sample_profile sample_query
          false direction.kForward 4 none).getD []) ∧
    (0 : way_idx_t) ∈ sample_lookup.rtree_search
      (sample_externals.box_around sample_query.pos_ 4) ∧
    (sample_lookup.projection sample_externals sample_query 0).1 < (4 : ℤ) ^ 2 ∧
    ∃ cl cr,
      sample_lookup.node_candidate_of sample_externals sample_profile sample_query false
        direction.kForward none 0 direction.kBackward = some cl ∧
      sample_lookup.node_candidate_of sample_externals sample_profile sample_query false
        direction.kForward none 0 direction.kForward = some cr ∧
      (sample_lookup.assembled sample_externals sample_query 0 cl cr
          ∈ (sample_lookup.get_way_candidates sample_externals sample_profile sample_query
            false direction.kForward 4 none).getD [] ↔
        (cl.valid sample_externals = true ∨ cr.valid sample_externals = true)) :=
  ⟨by decide, by decide, by decide,
   (survival_rule sample_lookup sample_externals sample_profile sample_query false
      direction.kForward 4 none _ (by decide)).1 0 (by decide) (by decide)⟩

/-- The list returned at radius 4 around the sample query has the distances 2
and 3, in this order. -/
theorem candidates_sorted_witness :
    (sample_lookup.get_way_candidates sample_externals sample_profile sample_query false
        direction.kForward 4 none).map (fun l => l.map (fun x => x.dist_to_way_))
      = some [2, 3] ∧
    ((sample_lookup.get_way_candidates sample_externals sample_profile sample_query false
        direction.kForward 4 none).getD []).Pairwise
      (fun a b => a.dist_to_way_ ≤ b.dist_to_way_) :=
  ⟨by decide,
   (candidates_sorted sample_lookup sample_externals sample_profile sample_query false
      direction.kForward 4 none _ (by decide)).1⟩

section
variable {R : Type} [LinearOrderedCommRing R]

/-- A defined result of `find_next_node` after a feasible initial hop means that
the projection index was inside the way. -/
theorem find_next_node_some_in_range (self : lookup R) (E : externals R) (P : profile)
    (wc : way_candidate R) (q : location R) (dir : direction) (lvl : level_t) (reverse : Bool)
    (search_dir : direction) (blocked : Option (node_idx_t → Bool)) (lng : R)
    (c : node_candidate R)
    (h : self.find_next_node E P wc q dir lvl reverse search_dir blocked lng = some c)
    (hfeas : self.offroad_cost E P wc dir reverse search_dir ≠ E.kInfeasible) :
    wc.segment_idx_ < (self.vertices wc).length := by
  unfold lookup.offroad_cost effective_dir at hfeas
  unfold lookup.find_next_node at h
  simp only [if_neg hfeas] at h
  unfold lookup.vertices
  cases ht : till_the_end (wc.segment_idx_ + (if dir = direction.kForward then 1 else 0))
      (List.zip (self.ways_.way_polylines_ wc.way_) (self.ways_.way_osm_nodes_ wc.way_)) dir
      (self.find_next_node_visit E P (self.ways_.way_properties_ wc.way_) search_dir
        (if reverse = true then E.opposite dir else dir) blocked lng)
      { lvl_ := lvl, way_dir_ := dir, node_ := E.node_invalid,
        dist_to_node_ := wc.dist_to_way_,
        cost_ := P.way_cost (self.ways_.way_properties_ wc.way_)
          (E.flip search_dir (if reverse = true then E.opposite dir else dir))
          (E.to_distance_t wc.dist_to_way_),
        offroad_cost_ := P.way_cost (self.ways_.way_properties_ wc.way_)
          (E.flip search_dir (if reverse = true then E.opposite dir else dir))
          (E.to_distance_t wc.dist_to_way_),
        path_ := [wc.best_] } with
  | none => rw [ht] at h; simp at h
  | some c1 =>
    have hr := till_the_end_some_in_range _ _ _ _ _ _ ht
    generalize List.zip (self.ways_.way_polylines_ wc.way_)
      (self.ways_.way_osm_nodes_ wc.way_) = vs at hr ⊢
    by_cases hd : dir = direction.kForward
    · simp only [hd, if_true] at hr; omega
    · simp only [hd, if_false] at hr; omega

/-- Every result of `find_next_node` after a feasible initial hop is the closed
form of the walk. -/
theorem find_next_node_some_eq (self : lookup R) (E : externals R) (P : profile)
    (wc : way_candidate R) (q : location R) (dir : direction) (lvl : level_t) (reverse : Bool)
    (search_dir : direction) (blocked : Option (node_idx_t → Bool)) (lng : R)
    (c : node_candidate R)
    (h : self.find_next_node E P wc q dir lvl reverse search_dir blocked lng = some c)
    (hfeas : self.offroad_cost E P wc dir reverse search_dir ≠ E.kInfeasible) :
    c = finish reverse
          (self.walked E P (self.ways_.way_properties_ wc.way_)
            (effective_dir E dir reverse search_dir) blocked lng
            (self.start_candidate E P wc dir lvl reverse search_dir) wc.best_
            (self.side wc dir)) := by
  have hidx := find_next_node_some_in_range self E P wc q dir lvl reverse search_dir blocked lng
    c h hfeas
  rw [find_next_node_eq self E P wc q dir lvl reverse search_dir blocked lng hfeas hidx] at h
  exact (Option.some.inj h).symm

/-- One call of the callback of `find_next_node` on a candidate whose path ends
in `back`. -/
theorem find_next_node_visit_some (self : lookup R) (E : externals R) (P : profile)
    (way_prop : way_properties) (search_dir edge_dir : direction)
    (blocked : Option (node_idx_t → Bool)) (lng : R) (c : node_candidate R)
    (x : latlng R × osm_node_idx_t) (back : latlng R) (hback : c.path_.getLast? = some back) :
    ∃ f c', self.find_next_node_visit E P way_prop search_dir edge_dir blocked lng c x
        = some (f, c') ∧
      c'.cost_ = (c.cost_ + P.way_cost way_prop (E.flip search_dir edge_dir)
        (E.to_distance_t (E.sqrt (E.approx_squared_distance back x.1 lng)))) % 2 ^ E.cost_bits ∧
      c'.dist_to_node_ = c.dist_to_node_ + E.sqrt (E.approx_squared_distance back x.1 lng) ∧
      c'.path_ = c.path_ ++ [x.1] ∧ c'.offroad_cost_ = c.offroad_cost_ := by
  unfold lookup.find_next_node_visit
  simp only [hback]
  cases hnode : self.ways_.find_node_idx x.2 with
  | none => exact ⟨_, _, rfl, rfl, rfl, rfl, rfl⟩
  | some n =>
    by_cases hb : not_blocked blocked n = true
    · simp only [hb, if_true]
      exact ⟨_, _, rfl, rfl, rfl, rfl, rfl⟩
    · simp only [if_neg hb]
      exact ⟨_, _, rfl, rfl, rfl, rfl, rfl⟩

/-- C11, as amended: one call of the callback of `find_next_node` replaces
`cost_` by `cost_` plus the profile cost of the hop, modulo `2 ^ cost_bits`, so
`cost_` does not decrease in a step whose sum fits into `cost_t`; and every
candidate returned by `find_next_node` has `cost_ ≥ offroad_cost_` when the
offroad cost plus the profile costs of the hops of its path fit into `cost_t`. -/
theorem cost_nondecreasing_amended (self : lookup R) (E : externals R) (P : profile)
    (wc : way_candidate R) (q : location R) (dir : direction) (lvl : level_t) (reverse : Bool)
    (search_dir : direction) (blocked : Option (node_idx_t → Bool)) (lng : R)
    (c : node_candidate R)
    (h : self.find_next_node E P wc q dir lvl reverse search_dir blocked lng = some c) :
    (∀ (c0 : node_candidate R) (x : latlng R × osm_node_idx_t) (back : latlng R),
      c0.path_.getLast? = some back →
      ∃ f c1, self.find_next_node_visit E P (self.ways_.way_properties_ wc.way_) search_dir
          (if reverse = true then E.opposite dir else dir) blocked lng c0 x = some (f, c1) ∧
        c1.cost_ = (c0.cost_ + P.way_cost (self.ways_.way_properties_ wc.way_)
          (effective_dir E dir reverse search_dir)
          (E.to_distance_t (E.sqrt (E.approx_squared_distance back x.1 lng))))
          % 2 ^ E.cost_bits ∧
        (c0.cost_ + P.way_cost (self.ways_.way_properties_ wc.way_)
          (effective_dir E dir reverse search_dir)
          (E.to_distance_t (E.sqrt (E.approx_squared_distance back x.1 lng)))
          < 2 ^ E.cost_bits → c0.cost_ ≤ c1.cost_)) ∧
    (c.offroad_cost_ + (hop_costs E P (self.ways_.way_properties_ wc.way_)
        (effective_dir E dir reverse search_dir) lng
        (if reverse = true then c.path_.reverse else c.path_)).sum < 2 ^ E.cost_bits →
      c.offroad_cost_ ≤ c.cost_) := by
  constructor
  · intro c0 x back hback
    obtain ⟨f, c1, h1, h2, _, _, _⟩ := find_next_node_visit_some self E P
      (self.ways_.way_properties_ wc.way_) search_dir
      (if reverse = true then E.opposite dir else dir) blocked lng c0 x back hback
    refine ⟨f, c1, h1, h2, ?_⟩
    intro hfit
    rw [h2]
    unfold effective_dir at hfit
    rw [Nat.mod_eq_of_lt hfit]
    exact Nat.le_add_right _ _
  · intro hfit
    by_cases hfeas : self.offroad_cost E P wc dir reverse search_dir = E.kInfeasible
    · rw [find_next_node_infeasible self E P wc q dir lvl reverse search_dir blocked lng hfeas]
        at h
      rw [← Option.some.inj h]
      exact Nat.le_refl _
    · have hc := find_next_node_some_eq self E P wc q dir lvl reverse search_dir blocked lng
        c h hfeas
      subst hc
      rw [finish_unreversed_path, finish_offroad] at hfit
      simp only [lookup.walked, lookup.start_candidate, List.singleton_append] at hfit
      simp only [finish_cost, finish_offroad, lookup.walked, lookup.start_candidate]
      rw [cost_sum_eq_of_fit _ _ _ hfit]
      exact Nat.le_add_right _ _

end

/-- For the point (6, 130), 94 units from way 3 of the sample network, with its
forward candidate at node 9: the offroad cost 37600 and the hop cost 28000 fit
into 16 bits only after wrapping. -/
theorem cost_nondecreasing_counterexample :
    (sample_lookup.find_next_node sample_externals steep_profile
        (sample_lookup.projected sample_externals ⟨⟨6, 130⟩, 0⟩ 3) ⟨⟨6, 130⟩, 0⟩
        direction.kForward 0 false direction.kForward none 1).map
      (fun c => (c.valid sample_externals, c.node_, c.offroad_cost_, c.cost_))
      = some (true, 9, 37600, 64) := by
  decide

/-- On way 0 of the sample network the forward candidate of the sample query
has offroad cost 3 and cost 11. -/
theorem cost_nondecreasing_amended_witness :
    (sample_lookup.find_next_node sample_externals sample_profile
        (sample_lookup.projected sample_externals sample_query 0) sample_query
        direction.kForward 0 false direction.kForward none 1).map
      (fun c => (c.offroad_cost_, c.cost_)) = some (3, 11) ∧
    ((sample_lookup.find_next_node sample_externals sample_profile
        (sample_lookup.projected sample_externals sample_query 0) sample_query
        direction.kForward 0 false direction.kForward none 1).getD
        (node_candidate.init sample_externals)).offroad_cost_
      ≤ ((sample_lookup.find_next_node sample_externals sample_profile
        (sample_lookup.projected sample_externals sample_query 0) sample_query
        direction.kForward 0 false direction.kForward none 1).getD
        (node_candidate.init sample_externals)).cost_ :=
  ⟨by decide,
   (cost_nondecreasing_amended sample_lookup sample_externals sample_profile
     (sample_lookup.projected sample_externals sample_query 0) sample_query
     direction.kForward 0 false direction.kForward none 1 _ (by decide)).2 (by decide)⟩

/-! ## The offroad cost -/

section
variable {R : Type} [LinearOrderedCommRing R]

/-- C12, as amended: every candidate returned by `find_next_node` after a
feasible initial hop has as `offroad_cost_` the profile cost, in the effective
direction `flip(search_dir, reverse ? opposite(dir) : dir)`, of the distance
`dist_to_way_` between the query point and its projection `best_`, converted
to `distance_t`. -/
theorem offroad_cost_amended (self : lookup R) (E : externals R) (P : profile)
    (wc : way_candidate R) (q : location R) (dir : direction) (lvl : level_t) (reverse : Bool)
    (search_dir : direction) (blocked : Option (node_idx_t → Bool)) (lng : R)
    (c : node_candidate R)
    (h : self.find_next_node E P wc q dir lvl reverse search_dir blocked lng = some c)
    (hfeas : self.offroad_cost E P wc dir reverse search_dir ≠ E.kInfeasible) :
    c.offroad_cost_ = P.way_cost (self.ways_.way_properties_ wc.way_)
      (E.flip search_dir (if reverse = true then E.opposite dir else dir))
      (E.to_distance_t wc.dist_to_way_) := by
  have hc := find_next_node_some_eq self E P wc q dir lvl reverse search_dir blocked lng c h
    hfeas
  subst hc
  rw [finish_offroad]
  rfl

end

/-- On way 0 of the sample network, for the sample query 3 units from the way,
the forward candidate has the offroad cost 3, the cost of 3 distance units. -/
theorem offroad_cost_amended_witness :
    sample_lookup.offroad_cost sample_externals sample_profile
        (sample_lookup.projected sample_externals sample_query 0) direction.kForward false
        direction.kForward ≠ sample_externals.kInfeasible ∧
    (sample_lookup.projected sample_externals sample_query 0).dist_to_way_ = 3 ∧
    ((sample_lookup.find_next_node sample_externals sample_profile
        (sample_lookup.projected sample_externals sample_query 0) sample_query
        direction.kForward 0 false direction.kForward none 1).getD
        (node_candidate.init sample_externals)).offroad_cost_
      = sample_profile.way_cost
          (sample_lookup.ways_.way_properties_
            (sample_lookup.projected sample_externals sample_query 0).way_)
          (sample_externals.flip direction.kForward
            (if false = true then sample_externals.opposite direction.kForward
              else direction.kForward))
          (sample_externals.to_distance_t
            (sample_lookup.projected sample_externals sample_query 0).dist_to_way_) :=
  ⟨by decide, by decide,
   offroad_cost_amended sample_lookup sample_externals sample_profile
     (sample_lookup.projected sample_externals sample_query 0) sample_query
     direction.kForward 0 false direction.kForward none 1 _ (by decide) (by decide)⟩

/-- C12 fails as stated: for the sample query and way 0 of the sample network,
walking forward, the projected point `best_` is (0, 12) and the first vertex
considered is (0, 20); the hop between them has length 8 and profile cost 8,
but `offroad_cost_` is 3, the profile cost of the distance 3 between the query
point (3, 12) and `best_`. -/
theorem offroad_cost_counterexample :
    (sample_lookup.projected sample_externals sample_query 0).best_ = ⟨0, 12⟩ ∧
    ((sample_lookup.side (sample_lookup.projected sample_externals sample_query 0)
        direction.kForward).head?).map Prod.fst = some ⟨0, 20⟩ ∧
    hop_costs sample_externals sample_profile 0 direction.kForward 1 [⟨0, 12⟩, ⟨0, 20⟩] = [8] ∧
    (sample_lookup.find_next_node sample_externals sample_profile
        (sample_lookup.projected sample_externals sample_query 0) sample_query
        direction.kForward 0 false direction.kForward none 1).map
      (fun c => c.offroad_cost_) = some 3 := by
  decide

/-! ## The distance filter -/

theorem isqrt_go_spec (n : Nat) :
    ∀ fuel k : Nat, k * k ≤ n → n < (k + fuel + 1) * (k + fuel + 1) →
      isqrt_go n fuel k * isqrt_go n fuel k ≤ n ∧
      n < (isqrt_go n fuel k + 1) * (isqrt_go n fuel k + 1) := by
  intro fuel
  induction fuel with
  | zero => intro k h1 h2; exact ⟨h1, h2⟩
  | succ fuel ih =>
    intro k h1 h2
    unfold isqrt_go
    by_cases hk : (k + 1) * (k + 1) ≤ n
    · rw [if_pos hk]
      exact ih (k + 1) hk (by
        have e : k + 1 + fuel + 1 = k + (fuel + 1) + 1 := by omega
        rw [e]; exact h2)
    · rw [if_neg hk]
      exact ⟨h1, by omega⟩

/-- The integer square root of a non-negative number `x` is the number `k ≥ 0`
with `k * k ≤ x < (k + 1) * (k + 1)`. -/
theorem isqrt_spec (x : ℤ) (hx : 0 ≤ x) :
    0 ≤ isqrt x ∧ isqrt x * isqrt x ≤ x ∧ x < (isqrt x + 1) * (isqrt x + 1) := by
  obtain ⟨n, rfl⟩ := Int.eq_ofNat_of_zero_le hx
  have h := isqrt_go_spec n n 0 (Nat.zero_le _) (by nlinarith)
  unfold isqrt
  simp only [Int.toNat_ofNat]
  refine ⟨Int.ofNat_nonneg _, ?_, ?_⟩
  · exact_mod_cast h.1
  · exact_mod_cast h.2

theorem isqrt_of_neg (x : ℤ) (hx : x < 0) : isqrt x = 0 := by
  unfold isqrt
  have h : x.toNat = 0 := Int.toNat_eq_zero.mpr (le_of_lt hx)
  rw [h]
  rfl

theorem isqrt_mono (a b : ℤ) (h : a ≤ b) : isqrt a ≤ isqrt b := by
  by_cases ha : a < 0
  · rw [isqrt_of_neg a ha]
    exact isqrt_nonneg b
  · have ha' : 0 ≤ a := not_lt.mp ha
    obtain ⟨ha0, ha1, _⟩ := isqrt_spec a ha'
    obtain ⟨hb0, _, hb2⟩ := isqrt_spec b (le_trans ha' h)
    by_contra hlt
    have hlt' : isqrt b + 1 ≤ isqrt a := by omega
    nlinarith

theorem isqrt_sq_le (y : ℤ) (hy : 0 ≤ y) : isqrt (y ^ 2) ≤ y := by
  obtain ⟨h0, h1, _⟩ := isqrt_spec (y ^ 2) (by positivity)
  by_contra hlt
  have hlt' : y + 1 ≤ isqrt (y ^ 2) := by omega
  nlinarith

/-- The bit-by-bit search keeps the floor of the square root between `r` and
`r + 2 ^ b`. -/
theorem bit_sqrt_spec (n : Nat) :
    ∀ b r : Nat, r ^ 2 ≤ n → n < (r + 2 ^ b) ^ 2 →
      bit_sqrt n b r ^ 2 ≤ n ∧ n < (bit_sqrt n b r + 1) ^ 2 := by
  intro b
  induction b with
  | zero =>
    intro r h1 h2
    exact ⟨h1, by simpa using h2⟩
  | succ b ih =>
    intro r h1 h2
    unfold bit_sqrt
    by_cases h : (r + 2 ^ b) ^ 2 ≤ n
    · rw [if_pos h]
      refine ih _ h ?_
      have e : r + 2 ^ b + 2 ^ b = r + 2 ^ (b + 1) := by rw [pow_succ]; omega
      rw [e]
      exact h2
    · rw [if_neg h]
      exact ih _ h1 (not_le.mp h)

/-- For `n < 2 ^ 128` the search over 64 bits finds the floor of the square root
of `n`. -/
theorem bit_sqrt_floor (n : Nat) (hn : n < 2 ^ 128) :
    bit_sqrt n 64 0 ^ 2 ≤ n ∧ n < (bit_sqrt n 64 0 + 1) ^ 2 := by
  have h0 : 0 ^ 2 ≤ n := by norm_num
  have h1 : n < (0 + 2 ^ 64) ^ 2 := by
    have e : (0 + 2 ^ 64) ^ 2 = 2 ^ 128 := by norm_num
    rw [e]
    exact hn
  exact bit_sqrt_spec n 64 0 h0 h1

/-- Rounding a floor root `f ≥ 1` of `n` to an even number: the result is even
and the exact root of `n` is at most one unit away from it. -/
theorem round_to_even_spec (n f : Nat) (hf1 : f ^ 2 ≤ n) (hf2 : n < (f + 1) ^ 2)
    (hf : 2 ≤ f) :
    round_to_even n f % 2 = 0 ∧ (round_to_even n f - 1) ^ 2 ≤ n ∧
      n ≤ (round_to_even n f + 1) ^ 2 := by
  unfold round_to_even
  obtain ⟨lo, hlo⟩ : ∃ lo, lo = f - f % 2 := ⟨_, rfl⟩
  simp only [← hlo]
  have hlo2 : lo % 2 = 0 := by omega
  have hlof : lo ≤ f := by omega
  have hflo : f ≤ lo + 1 := by omega
  have hlopos : 1 ≤ lo := by omega
  have hlosq : lo ^ 2 ≤ n := le_trans (Nat.pow_le_pow_left hlof 2) hf1
  have hhi : n < (lo + 2) ^ 2 := lt_of_lt_of_le hf2 (Nat.pow_le_pow_left (by omega) 2)
  have hm1 : (lo - 1) ^ 2 ≤ lo ^ 2 := Nat.pow_le_pow_left (by omega) 2
  have hp3 : (lo + 2) ^ 2 ≤ (lo + 2 + 1) ^ 2 := Nat.pow_le_pow_left (by omega) 2
  have hp1 : lo + 2 - 1 = lo + 1 := by omega
  by_cases ha : n < (lo + 1) ^ 2
  · rw [if_pos ha]
    exact ⟨hlo2, le_trans hm1 hlosq, le_of_lt ha⟩
  · rw [if_neg ha]
    have hr : (lo + 2) % 2 = 0 ∧ (lo + 2 - 1) ^ 2 ≤ n ∧ n ≤ (lo + 2 + 1) ^ 2 := by
      rw [hp1]
      exact ⟨by omega, not_lt.mp ha, le_trans (le_of_lt hhi) hp3⟩
    by_cases hb : (lo + 1) ^ 2 < n
    · rw [if_pos hb]
      exact hr
    · rw [if_neg hb]
      by_cases hc : lo / 2 % 2 = 0
      · rw [if_pos hc]
        exact ⟨hlo2, le_trans hm1 hlosq, not_lt.mp hb⟩
      · rw [if_neg hc]
        exact hr

/-- On arguments in `[1, 4)` (in units of `2 ^ -106`) the value of
`binary64_sqrt` is an even integer, that is, a binary64 number in `[1, 2]` in
units of `2 ^ -53`, and the exact root is at most half a step of these numbers
(one unit) away from it. -/
theorem binary64_sqrt_nearest (x : ℤ) (h1 : 2 ^ 106 ≤ x) (h2 : x < 2 ^ 108) :
    binary64_sqrt x % 2 = 0 ∧ (binary64_sqrt x - 1) ^ 2 ≤ x ∧
      x ≤ (binary64_sqrt x + 1) ^ 2 := by
  obtain ⟨n, rfl⟩ := Int.eq_ofNat_of_zero_le (le_trans (by norm_num) h1)
  have hn1 : 2 ^ 106 ≤ n := by exact_mod_cast h1
  have hn2 : n < 2 ^ 108 := by exact_mod_cast h2
  have hn3 : n < 2 ^ 128 := lt_trans hn2 (by norm_num)
  have hfl := bit_sqrt_floor n hn3
  unfold binary64_sqrt
  rw [Int.toNat_ofNat]
  generalize bit_sqrt n 64 0 = f at hfl
  obtain ⟨hf1, hf2⟩ := hfl
  have hf : 2 ≤ f := by
    by_contra hlt
    have hle : f + 1 ≤ 2 := by omega
    have := Nat.pow_le_pow_left hle 2
    have h4 : (2 : Nat) ^ 2 < 2 ^ 106 := by norm_num
    omega
  obtain ⟨e1, e2, e3⟩ := round_to_even_spec n f hf1 hf2 hf
  have hpos : 1 ≤ round_to_even n f := by
    by_contra hlt
    have h0 : round_to_even n f = 0 := by omega
    rw [h0] at e3
    have h4 : (0 + 1 : Nat) ^ 2 < 2 ^ 106 := by norm_num
    omega
  generalize round_to_even n f = r at e1 e2 e3 hpos
  refine ⟨by exact_mod_cast e1, ?_, by exact_mod_cast e3⟩
  have : (((r - 1 : Nat) : ℤ)) ^ 2 ≤ (n : ℤ) := by exact_mod_cast e2
  rwa [Nat.cast_sub hpos, Nat.cast_one] at this
section
variable {R : Type} [LinearOrderedCommRing R]

/-- The way and the distance of a candidate returned by `get_way_candidates`. -/
theorem get_way_candidates_dist (self : lookup R) (E : externals R) (P : profile)
    (query : location R) (reverse : Bool) (search_dir : direction) (d : R)
    (blocked : Option (node_idx_t → Bool)) (l : match_t R)
    (hg : self.get_way_candidates E P query reverse search_dir d blocked = some l)
    (x : way_candidate R) (hx : x ∈ l) :
    x.way_ ∈ self.rtree_search (E.box_around query.pos_ d) ∧
    (self.projection E query x.way_).1 < d ^ 2 ∧
    x.dist_to_way_ = E.sqrt (self.projection E query x.way_).1 := by
  obtain ⟨way, hway, hsq, cl, cr, _, _, _, rfl⟩ :=
    (get_way_candidates_mem self E P query reverse search_dir d blocked l hg x).mp hx
  exact ⟨hway, hsq, rfl⟩

/-- C13, as amended: every candidate in a list returned by `get_way_candidates`
at radius `d` belongs to a way delivered by the range search whose squared
projection distance is strictly below `d ^ 2` (a way with squared distance
`≥ d ^ 2` is never returned), and its `dist_to_way_` is the square root of that
squared distance.  For `d ≥ 0`, `dist_to_way_ ≤ d` holds when the square root
is monotone with `sqrt (y ^ 2) ≤ y`; the strict `dist_to_way_ < d` holds when
squared distances are not negative and the square root is exact in the sense
that `0 ≤ a < y ^ 2` gives `sqrt a < y`.  The candidates returned by `match`
with initial radius `r ≥ 0` satisfy the same with `16 * r` in place of `d`. -/
theorem distance_filter_amended (self : lookup R) (E : externals R) (P : profile)
    (query : location R) (reverse : Bool) (search_dir : direction) (d : R)
    (blocked : Option (node_idx_t → Bool)) (l : match_t R)
    (hg : self.get_way_candidates E P query reverse search_dir d blocked = some l) :
    (∀ x ∈ l, x.way_ ∈ self.rtree_search (E.box_around query.pos_ d) ∧
      (self.projection E query x.way_).1 < d ^ 2 ∧
      x.dist_to_way_ = E.sqrt (self.projection E query x.way_).1) ∧
    ((∀ a b, a ≤ b → E.sqrt a ≤ E.sqrt b) → (∀ y, 0 ≤ y → E.sqrt (y ^ 2) ≤ y) → 0 ≤ d →
      ∀ x ∈ l, x.dist_to_way_ ≤ d) ∧
    ((∀ a y, 0 ≤ a → 0 ≤ y → a < y ^ 2 → E.sqrt a < y) →
      (∀ way, 0 ≤ (self.projection E query way).1) → 0 ≤ d →
      ∀ x ∈ l, x.dist_to_way_ < d) ∧
    (∀ r lm, 0 ≤ r → self.match_ E P query reverse search_dir r blocked = some lm →
      ∀ x ∈ lm, (self.projection E query x.way_).1 < (16 * r) ^ 2 ∧
        x.dist_to_way_ = E.sqrt (self.projection E query x.way_).1 ∧
        ((∀ a b, a ≤ b → E.sqrt a ≤ E.sqrt b) → (∀ y, 0 ≤ y → E.sqrt (y ^ 2) ≤ y) →
          x.dist_to_way_ ≤ 16 * r) ∧
        ((∀ a y, 0 ≤ a → 0 ≤ y → a < y ^ 2 → E.sqrt a < y) →
          (∀ way, 0 ≤ (self.projection E query way).1) → x.dist_to_way_ < 16 * r)) := by
  refine ⟨fun x hx => get_way_candidates_dist self E P query reverse search_dir d blocked l hg
    x hx, ?_, ?_, ?_⟩
  · intro hmono hsq hd x hx
    obtain ⟨_, h1, h2⟩ := get_way_candidates_dist self E P query reverse search_dir d blocked l
      hg x hx
    rw [h2]
    exact le_trans (hmono _ _ (le_of_lt h1)) (hsq d hd)
  · intro hexact hnn hd x hx
    obtain ⟨_, h1, h2⟩ := get_way_candidates_dist self E P query reverse search_dir d blocked l
      hg x hx
    rw [h2]
    exact hexact _ d (hnn _) hd h1
  · intro r lm hr hm x hx
    obtain ⟨k, hk, hgk⟩ := match_eq_attempt self E P query reverse search_dir r blocked lm hm
    obtain ⟨_, h1, h2⟩ := get_way_candidates_dist self E P query reverse search_dir _ blocked
      lm hgk x hx
    have h16 : (r * 2 ^ k) ^ 2 ≤ (16 * r) ^ 2 := by
      interval_cases k <;> nlinarith [sq_nonneg r]
    have h3 : (self.projection E query x.way_).1 < (16 * r) ^ 2 := lt_of_lt_of_le h1 h16
    have hr16 : 0 ≤ 16 * r := by positivity
    refine ⟨h3, h2, ?_, ?_⟩
    · intro hmono hsq
      rw [h2]
      exact le_trans (hmono _ _ (le_of_lt h3)) (hsq _ hr16)
    · intro hexact hnn
      rw [h2]
      exact hexact _ _ (hnn _) hr16 h3

end

/-- At radius 4 around the sample query, with the square root rounded down,
the returned candidates have distances 2 and 3, both at most 4. -/
theorem distance_filter_amended_witness :
    (sample_lookup.get_way_candidates sample_externals sample_profile sample_query false
        direction.kForward 4 none).map (fun l => l.map (fun x => x.dist_to_way_))
      = some [2, 3] ∧
    ∀ x ∈ (sample_lookup.get_way_candidates sample_externals sample_profile sample_query
        false direction.kForward 4 none).getD [], x.dist_to_way_ ≤ 4 :=
  ⟨by decide,
   (distance_filter_amended sample_lookup sample_externals sample_profile sample_query false
      direction.kForward 4 none _ (by decide)).2.1 isqrt_mono isqrt_sq_le (by decide)⟩

/-- C13 fails as stated in binary64 arithmetic: at the radius 1.25 a way with
the squared distance 1.5624999999999998, the binary64 number next below
`1.25 ^ 2` = 1.5625, passes the filter, and its candidate is returned with
`dist_to_way_` = 1.25, which is not below the radius.  The exact root of
1.5624999999999998 lies between `1.25 - 2 ^ -53` and 1.25, less than half a
step of the binary64 numbers (`2 ^ -52`) below the binary64 number 1.25, so
`std::sqrt` rounds it to 1.25.  Distances are written in units of `2 ^ -53`,
squared distances in units of `2 ^ -106`. -/
theorem distance_filter_counterexample :
    binary64_squared_distance < binary64_radius ^ 2 ∧
    (binary64_radius - 1) ^ 2 < binary64_squared_distance ∧
    binary64_radius % 2 = 0 ∧
    (binary64_lookup.projection binary64_externals sample_query 0).1
      = binary64_squared_distance ∧
    (binary64_lookup.get_way_candidates binary64_externals sample_profile sample_query false
        direction.kForward binary64_radius none).map
          (fun l => l.map (fun x => (x.way_, x.dist_to_way_)))
      = some [(0, binary64_radius)] := by
  decide

/-! ## The exclusion mask -/

section
variable {R : Type} [LinearOrderedCommRing R]

/-- C14: with a mask `b` in which no node is set, `find_next_node`,
`get_way_candidates` and `match` (its result and its calls) give exactly what
they give with `blocked == nullptr`, on every input. -/
theorem absent_mask_no_exclusion (self : lookup R) (E : externals R) (P : profile)
    (b : node_idx_t → Bool) (hb : ∀ n, b n = false) :
    (∀ wc q dir lvl reverse search_dir lng,
      self.find_next_node E P wc q dir lvl reverse search_dir none lng
        = self.find_next_node E P wc q dir lvl reverse search_dir (some b) lng) ∧
    (∀ query reverse search_dir d,
      self.get_way_candidates E P query reverse search_dir d none
        = self.get_way_candidates E P query reverse search_dir d (some b)) ∧
    (∀ query reverse search_dir r,
      self.match_ E P query reverse search_dir r none
        = self.match_ E P query reverse search_dir r (some b) ∧
      self.match_calls E P query reverse search_dir r none
        = self.match_calls E P query reverse search_dir r (some b)) := by
  have hnb : ∀ n, not_blocked (some b) n = not_blocked none n := by
    intro n
    simp [not_blocked, hb]
  have hvisit : ∀ way_prop search_dir edge_dir lng,
      self.find_next_node_visit E P way_prop search_dir edge_dir (some b) lng
        = self.find_next_node_visit E P way_prop search_dir edge_dir none lng := by
    intro way_prop search_dir edge_dir lng
    funext c x
    unfold lookup.find_next_node_visit
    simp only [hnb]
  have hfnn : ∀ wc q dir lvl reverse search_dir lng,
      self.find_next_node E P wc q dir lvl reverse search_dir none lng
        = self.find_next_node E P wc q dir lvl reverse search_dir (some b) lng := by
    intro wc q dir lvl reverse search_dir lng
    unfold lookup.find_next_node
    simp only [hvisit]
  have hgv : ∀ query reverse search_dir lng sqd,
      self.get_way_candidates_visit E P query reverse search_dir none lng sqd
        = self.get_way_candidates_visit E P query reverse search_dir (some b) lng sqd := by
    intro query reverse search_dir lng sqd
    funext acc way
    unfold lookup.get_way_candidates_visit
    simp only [hfnn]
  have hgwc : ∀ query reverse search_dir d,
      self.get_way_candidates E P query reverse search_dir d none
        = self.get_way_candidates E P query reverse search_dir d (some b) := by
    intro query reverse search_dir d
    unfold lookup.get_way_candidates
    simp only [hgv]
  have hrun : ∀ query reverse search_dir r,
      self.match_run E P query reverse search_dir r none
        = self.match_run E P query reverse search_dir r (some b) := by
    intro query reverse search_dir r
    rw [match_run_unfold, match_run_unfold]
    simp only [hgwc]
  refine ⟨hfnn, hgwc, ?_⟩
  intro query reverse search_dir r
  unfold lookup.match_ lookup.match_calls
  rw [hrun]
  exact ⟨rfl, rfl⟩

end

/-- Around the sample query, `match` with initial radius 1 gives the same list
without a mask and with the mask that excludes nothing. -/
theorem absent_mask_no_exclusion_witness :
    (∀ n, (fun _ : node_idx_t => false) n = false) ∧
    sample_lookup.match_ sample_externals sample_profile sample_query false
        direction.kForward 1 none
      = sample_lookup.match_ sample_externals sample_profile sample_query false
        direction.kForward 1 (some (fun _ => false)) :=
  ⟨fun _ => rfl,
   ((absent_mask_no_exclusion sample_lookup sample_externals sample_profile (fun _ => false)
      (fun _ => rfl)).2.2 sample_query false direction.kForward 1).1⟩

/-! ## Path and distance of a node candidate -/

section
variable {R : Type} [LinearOrderedCommRing R]

omit [LinearOrderedCommRing R] in
theorem foldl_add_eq_sum {S : Type} [CommRing S] :
    ∀ (l : List S) (a : S), l.foldl (fun acc x => acc + x) a = a + l.sum := by
  intro l
  induction l with
  | nil => intro a; simp
  | cons x xs ih => intro a; simp [ih, add_assoc]

/-- C16: every candidate returned by `find_next_node` after a feasible initial
hop has as `dist_to_node_` the distance `dist_to_way_` plus the sum of the
lengths of the hops between consecutive points of its unreversed path (added
one after the other, in path order); hence `dist_to_node_ ≥ dist_to_way_` when
the square root has no negative values. -/
theorem cumulative_distance (self : lookup R) (E : externals R) (P : profile)
    (wc : way_candidate R) (q : location R) (dir : direction) (lvl : level_t) (reverse : Bool)
    (search_dir : direction) (blocked : Option (node_idx_t → Bool)) (lng : R)
    (c : node_candidate R)
    (h : self.find_next_node E P wc q dir lvl reverse search_dir blocked lng = some c)
    (hfeas : self.offroad_cost E P wc dir reverse search_dir ≠ E.kInfeasible) :
    c.dist_to_node_ = wc.dist_to_way_ +
      (hop_lengths E lng (if reverse = true then c.path_.reverse else c.path_)).sum ∧
    c.dist_to_node_ =
      (hop_lengths E lng (if reverse = true then c.path_.reverse else c.path_)).foldl
        (fun acc x => acc + x) wc.dist_to_way_ ∧
    ((∀ x, 0 ≤ E.sqrt x) → wc.dist_to_way_ ≤ c.dist_to_node_) := by
  have hc := find_next_node_some_eq self E P wc q dir lvl reverse search_dir blocked lng c h
    hfeas
  subst hc
  have h1 : (finish reverse (self.walked E P (self.ways_.way_properties_ wc.way_)
      (effective_dir E dir reverse search_dir) blocked lng
      (self.start_candidate E P wc dir lvl reverse search_dir) wc.best_
      (self.side wc dir))).dist_to_node_ = wc.dist_to_way_ +
      (hop_lengths E lng (if reverse = true then (finish reverse (self.walked E P
        (self.ways_.way_properties_ wc.way_) (effective_dir E dir reverse search_dir) blocked
        lng (self.start_candidate E P wc dir lvl reverse search_dir) wc.best_
        (self.side wc dir))).path_.reverse else (finish reverse (self.walked E P
        (self.ways_.way_properties_ wc.way_) (effective_dir E dir reverse search_dir) blocked
        lng (self.start_candidate E P wc dir lvl reverse search_dir) wc.best_
        (self.side wc dir))).path_)).sum := by
    rw [finish_unreversed_path, finish_dist]
    simp [lookup.walked, lookup.start_candidate]
  refine ⟨h1, ?_, ?_⟩
  · rw [foldl_add_eq_sum]
    exact h1
  · intro hsqrt
    rw [h1]
    have hnn := List.sum_nonneg (hop_lengths_nonneg E lng hsqrt
      (if reverse = true then (finish reverse (self.walked E P
        (self.ways_.way_properties_ wc.way_) (effective_dir E dir reverse search_dir) blocked
        lng (self.start_candidate E P wc dir lvl reverse search_dir) wc.best_
        (self.side wc dir))).path_.reverse else (finish reverse (self.walked E P
        (self.ways_.way_properties_ wc.way_) (effective_dir E dir reverse search_dir) blocked
        lng (self.start_candidate E P wc dir lvl reverse search_dir) wc.best_
        (self.side wc dir))).path_))
    linarith

end

/-- On way 0 of the sample network, walking backward from the projection of the
sample query: distance 3 to the way, then hops of lengths 2 and 10. -/
theorem cumulative_distance_witness :
    (sample_lookup.projected sample_externals sample_query 0).dist_to_way_ = 3 ∧
    hop_lengths sample_externals 1 [⟨0, 12⟩, ⟨0, 10⟩, ⟨0, 0⟩] = [2, 10] ∧
    ((sample_lookup.find_next_node sample_externals sample_profile
        (sample_lookup.projected sample_externals sample_query 0) sample_query
        direction.kBackward 0 false direction.kForward none 1).getD
        (node_candidate.init sample_externals)).dist_to_node_ = 15 ∧
    (sample_lookup.projected sample_externals sample_query 0).dist_to_way_
      ≤ ((sample_lookup.find_next_node sample_externals sample_profile
        (sample_lookup.projected sample_externals sample_query 0) sample_query
        direction.kBackward 0 false direction.kForward none 1).getD
        (node_candidate.init sample_externals)).dist_to_node_ :=
  ⟨by decide, by decide, by decide,
   (cumulative_distance sample_lookup sample_externals sample_profile
      (sample_lookup.projected sample_externals sample_query 0) sample_query
      direction.kBackward 0 false direction.kForward none 1 _ (by decide) (by decide)).2.2
     isqrt_nonneg⟩

/-! ## The visit order of till_the_end -/

/-- A callback that always returns makes every walk return. -/
theorem walk_defined {α σ : Type} (fn : σ → α → Option (cflow × σ))
    (htotal : ∀ s x, fn s x ≠ none) :
    ∀ (vs : List α) (s : σ), ∃ s', walk fn vs s = some s' := by
  intro vs
  induction vs with
  | nil => intro s; exact ⟨s, rfl⟩
  | cons x xs ih =>
    intro s
    cases hfn : fn s x with
    | none => exact absurd hfn (htotal s x)
    | some r =>
      obtain ⟨f, s1⟩ := r
      cases f with
      | kBreak => exact ⟨s1, by simp [walk, hfn]⟩
      | kContinue =>
        obtain ⟨s', hs'⟩ := ih s1
        exact ⟨s', by simp [walk, hfn, hs']⟩

/-- What a recorded walk records: the elements of an initial part of the list,
in list order; nothing after an element on which the callback broke; the whole
list if the callback never broke.  The recorded walk ends in the same state as
the plain one. -/
theorem walk_recording {α σ : Type} (fn : σ → α → Option (cflow × σ)) :
    ∀ (vs : List α) (s s' : σ) (log : List (α × cflow)), walk fn vs s = some s' →
      ∃ entries, walk (recording fn) vs (s, log) = some (s', log ++ entries) ∧
        entries.map Prod.fst = vs.take entries.length ∧
        entries.length ≤ vs.length ∧
        (∀ pre e post, entries = pre ++ e :: post → e.2 = cflow.kBreak → post = []) ∧
        ((∀ e ∈ entries, e.2 = cflow.kContinue) → entries.map Prod.fst = vs) := by
  intro vs
  induction vs with
  | nil =>
    intro s s' log h
    simp only [walk, Option.some.injEq] at h
    subst h
    refine ⟨[], by simp [walk], rfl, Nat.le_refl _, ?_, fun _ => rfl⟩
    intro pre e post hpre
    simp at hpre
  | cons x xs ih =>
    intro s s' log h
    cases hfn : fn s x with
    | none => simp [walk, hfn] at h
    | some r =>
      obtain ⟨f, s1⟩ := r
      cases f with
      | kBreak =>
        simp only [walk, hfn, Option.some.injEq] at h
        subst h
        refine ⟨[(x, cflow.kBreak)], by simp [walk, recording, hfn], by simp, by simp, ?_, ?_⟩
        · intro pre e post hpre _
          cases pre with
          | nil =>
            simp only [List.nil_append, List.cons.injEq] at hpre
            exact hpre.2.symm
          | cons p pre =>
            simp only [List.cons_append, List.cons.injEq] at hpre
            have := congrArg List.length hpre.2
            simp at this
            omega
        · intro hall
          have := hall (x, cflow.kBreak) (List.mem_singleton.mpr rfl)
          simp at this
      | kContinue =>
        simp only [walk, hfn] at h
        obtain ⟨entries, h1, h2, h3, h4, h5⟩ := ih s1 s' (log ++ [(x, cflow.kContinue)]) h
        refine ⟨(x, cflow.kContinue) :: entries, ?_, ?_, ?_, ?_, ?_⟩
        · simp only [walk, recording, hfn, h1, List.append_assoc, List.singleton_append]
        · simp only [List.map_cons, List.length_cons, List.take_succ_cons, h2]
        · simp only [List.length_cons]; omega
        · intro pre e post hpre he
          cases pre with
          | nil =>
            simp only [List.nil_append, List.cons.injEq] at hpre
            rw [← hpre.1] at he
            simp at he
          | cons p pre =>
            simp only [List.cons_append, List.cons.injEq] at hpre
            exact h4 pre e post hpre.2 he
        · intro hall
          simp only [List.map_cons]
          rw [h5 (fun e he => hall e (List.mem_cons_of_mem _ he))]

/-- The elements of `walk_order` by index: a forward walk meets the elements at
the indices `start, start + 1, ...` up to the last one, a backward walk those
at `start, start - 1, ..., 0`. -/
theorem walk_order_index {α : Type} (start : Nat) (coll : List α) :
    ((walk_order start coll direction.kForward).length = coll.length - start ∧
      ∀ k, (walk_order start coll direction.kForward)[k]? = coll[start + k]?) ∧
    (start < coll.length →
      (walk_order start coll direction.kBackward).length = start + 1 ∧
      ∀ k, k ≤ start → (walk_order start coll direction.kBackward)[k]? = coll[start - k]?) := by
  constructor
  · constructor
    · simp [walk_order]
    · intro k
      simp [walk_order, List.getElem?_drop]
  · intro hstart
    have hlen : (coll.take (start + 1)).length = start + 1 := by
      rw [List.length_take]; omega
    constructor
    · simp only [walk_order, reduceCtorEq, if_false, List.length_reverse, hlen]
    · intro k hk
      simp only [walk_order, reduceCtorEq, if_false]
      rw [List.getElem?_reverse (by omega), hlen, List.getElem?_take]
      have e : start + 1 - 1 - k = start - k := by omega
      rw [e, if_pos (by omega)]

/-- The visit order of `till_the_end` within the range of its 32-bit counter:
for a callback that always returns, a start index inside the collection
(`start ≤ n` forward, `start < n` backward) and, on a backward walk,
`start + 1 < 2 ^ 32`, the function with the 32-bit counter calls the callback
on the elements of an initial part of the walk order, in that order, and on
nothing after an element for which it returned `kBreak`; if it never returns
`kBreak`, it is called on exactly the elements at the indices
`start, start + 1, ..., n - 1` (forward; none if `start = n`) or
`start, start - 1, ..., 0` (backward), in that order.  Recording the calls does
not change the final state. -/
theorem till_the_end_visit_order {α σ : Type} (start : Nat) (coll : List α)
    (dir : direction) (fn : σ → α → Option (cflow × σ)) (s : σ)
    (hstart : start + (if dir = direction.kForward then 0 else 1) ≤ coll.length)
    (hsmall : dir = direction.kBackward → start + 1 < 2 ^ 32)
    (htotal : ∀ s x, fn s x ≠ none) :
    ∃ s' log, till_the_end_u32 start coll dir (recording fn) (s, []) = some (s', log) ∧
      till_the_end_u32 start coll dir fn s = some s' ∧
      log.map Prod.fst = (walk_order start coll dir).take log.length ∧
      (∀ pre e post, log = pre ++ e :: post → e.2 = cflow.kBreak → post = []) ∧
      ((∀ e ∈ log, e.2 = cflow.kContinue) → log.map Prod.fst = walk_order start coll dir) ∧
      (dir = direction.kForward →
        (walk_order start coll dir).length = coll.length - start ∧
        ∀ k, (walk_order start coll dir)[k]? = coll[start + k]?) ∧
      (dir = direction.kBackward →
        (walk_order start coll dir).length = start + 1 ∧
        ∀ k, k ≤ start → (walk_order start coll dir)[k]? = coll[start - k]?) := by
  obtain ⟨s', hs'⟩ := walk_defined fn htotal (walk_order start coll dir) s
  obtain ⟨log, h1, h2, _, h4, h5⟩ := walk_recording fn (walk_order start coll dir) s s' [] hs'
  refine ⟨s', log, ?_, ?_, h2, h4, h5, ?_, ?_⟩
  · rw [till_the_end_u32_eq _ _ _ _ _ hsmall, till_the_end_eq_walk _ _ _ _ _ hstart, h1,
      List.nil_append]
  · rw [till_the_end_u32_eq _ _ _ _ _ hsmall, till_the_end_eq_walk _ _ _ _ _ hstart, hs']
  · intro hd
    subst hd
    exact (walk_order_index start coll).1
  · intro hd
    subst hd
    simp only [reduceCtorEq, if_false] at hstart
    exact (walk_order_index start coll).2 (by omega)

/-- A backward walk from index 2 over four elements with a callback that counts
and breaks on the element 11: the calls are on 12 and 11, the count is 2. -/
theorem till_the_end_visit_order_witness :
    till_the_end_u32 2 [10, 11, 12, 13] direction.kBackward
        (recording (fun (s : Nat) (x : Nat) =>
          some (if x = 11 then cflow.kBreak else cflow.kContinue, s + 1))) (0, [])
      = some (2, [(12, cflow.kContinue), (11, cflow.kBreak)]) ∧
    ∃ s' log, till_the_end_u32 2 [10, 11, 12, 13] direction.kBackward
        (recording (fun (s : Nat) (x : Nat) =>
          some (if x = 11 then cflow.kBreak else cflow.kContinue, s + 1))) (0, [])
        = some (s', log) ∧
      log.map Prod.fst = (walk_order 2 [10, 11, 12, 13] direction.kBackward).take log.length :=
  ⟨by decide,
   (till_the_end_visit_order 2 [10, 11, 12, 13] direction.kBackward
      (fun (s : Nat) (x : Nat) =>
        some (if x = 11 then cflow.kBreak else cflow.kContinue, s + 1)) 0
      (by decide) (fun _ => by norm_num) (fun _ _ => by simp)).imp
     (fun _ h => h.imp (fun _ h' => ⟨h'.1, h'.2.2.1⟩))⟩

/-- C17, at the failing input: on a collection of 4294967296 elements, from
`start` = 4294967295 = `2 ^ 32 - 1`, with a callback that counts its calls and
never breaks, the backward loop of `till_the_end` has no result after any
number of loop tests.  The index `start` is inside the collection; after the
call on index 0 the 32-bit counter wraps to 0 (`(4294967295 + 1) % 2 ^ 32 = 0`),
the test `j <= start` holds again and the loop starts over at index `start`,
where the claim has it end after the `start + 1` calls on the indices
`start, ..., 0`. -/
theorem till_the_end_backward_counter_wraps :
    4294967295 < (List.replicate 4294967296 (0 : Nat)).length ∧
    (4294967295 + 1) % 2 ^ 32 = 0 ∧
    ∀ budget, till_the_end_backward_u32 (List.replicate 4294967296 (0 : Nat))
        (recording (fun (s : Nat) (_ : Nat) => some (cflow.kContinue, s + 1)))
        4294967295 budget 0 (0, []) = none := by
  refine ⟨by rw [List.length_replicate]; norm_num, by norm_num, fun budget => ?_⟩
  apply till_the_end_backward_u32_never_returns _ _ _ (by norm_num) ?_ budget 0 _ (by norm_num)
  intro s x
  obtain ⟨s0, log⟩ := s
  exact Or.inr ⟨_, rfl⟩


/-! ## Coverage of the two walks and index safety -/

section
variable {R : Type} [LinearOrderedCommRing R]

/-- The callback of `find_next_node` has no result exactly when `path_.back()`
is applied to an empty path. -/
theorem find_next_node_visit_none (self : lookup R) (E : externals R) (P : profile)
    (way_prop : way_properties) (search_dir edge_dir : direction)
    (blocked : Option (node_idx_t → Bool)) (lng : R) (c : node_candidate R)
    (x : latlng R × osm_node_idx_t) :
    self.find_next_node_visit E P way_prop search_dir edge_dir blocked lng c x = none ↔
      c.path_ = [] := by
  unfold lookup.find_next_node_visit
  cases hlast : c.path_.getLast? with
  | none =>
    simp only [List.getLast?_eq_none_iff] at hlast
    simp [hlast]
  | some back =>
    have hne : c.path_ ≠ [] := by
      intro h
      rw [h] at hlast
      simp at hlast
    simp only [hne, iff_false]
    cases self.ways_.find_node_idx x.2 with
    | none => simp
    | some n => by_cases hb : not_blocked blocked n = true <;> simp [hb]

/-- Index safety within the range of the 32-bit counter of `till_the_end`: when
the polyline of a way and its list of external nodes both have the length
`n < 2 ^ 32` and the projection index is at most `n - 2` (written
`segment_idx_ + 2 ≤ n`, which includes `n ≥ 2`), then in either
direction `find_next_node` has a result; as the embedding has no result for an
element access outside the collection or for `back()` on an empty path (the
callback has no result exactly when the path is empty), every access is inside
`[0, n)` and `path_` is not empty at any call of `back()`.  After a feasible
initial hop the recorded walk, run with the 32-bit counter, ends after at most
`n` calls of the callback, all of them on vertices of the way, taken from the
walk order of that side. -/
theorem index_safety (self : lookup R) (E : externals R) (P : profile)
    (wc : way_candidate R) (q : location R) (dir : direction) (lvl : level_t) (reverse : Bool)
    (search_dir : direction) (blocked : Option (node_idx_t → Bool)) (lng : R) (n : Nat)
    (hpoly : (self.ways_.way_polylines_ wc.way_).length = n)
    (hosm : (self.ways_.way_osm_nodes_ wc.way_).length = n)
    (hs : wc.segment_idx_ + 2 ≤ n) (hsmall : n < 2 ^ 32) :
    (∃ c, self.find_next_node E P wc q dir lvl reverse search_dir blocked lng = some c) ∧
    (∀ c x, self.find_next_node_visit E P (self.ways_.way_properties_ wc.way_) search_dir
        (if reverse = true then E.opposite dir else dir) blocked lng c x = none ↔
      c.path_ = []) ∧
    (self.offroad_cost E P wc dir reverse search_dir ≠ E.kInfeasible →
      ∃ c1 log,
        till_the_end_u32 (wc.segment_idx_ + (if dir = direction.kForward then 1 else 0))
          (List.zip (self.ways_.way_polylines_ wc.way_) (self.ways_.way_osm_nodes_ wc.way_))
          dir
          (recording (self.find_next_node_visit E P (self.ways_.way_properties_ wc.way_)
            search_dir (if reverse = true then E.opposite dir else dir) blocked lng))
          (self.start_candidate E P wc dir lvl reverse search_dir, []) = some (c1, log) ∧
        log.length ≤ n ∧
        log.map Prod.fst = (self.side wc dir).take log.length ∧
        (∀ e ∈ log, e.1 ∈ self.vertices wc) ∧
        self.find_next_node E P wc q dir lvl reverse search_dir blocked lng
          = some (finish reverse c1)) := by
  have hlen : (self.vertices wc).length = n := by
    unfold lookup.vertices
    rw [List.length_zip, hpoly, hosm, Nat.min_self]
  have hidx : wc.segment_idx_ < (self.vertices wc).length := by omega
  refine ⟨find_next_node_defined self E P wc q dir lvl reverse search_dir blocked lng hidx,
    fun c x => find_next_node_visit_none self E P _ search_dir _ blocked lng c x, ?_⟩
  intro hfeas
  have hstart : (wc.segment_idx_ + (if dir = direction.kForward then 1 else 0))
      + (if dir = direction.kForward then 0 else 1) ≤ (self.vertices wc).length := by
    by_cases hd : dir = direction.kForward
    · simp only [hd, if_true]; omega
    · simp only [hd, if_false]; omega
  have hwalk := walk_visit_eq self E P (self.ways_.way_properties_ wc.way_) search_dir
    (if reverse = true then E.opposite dir else dir) blocked lng (self.side wc dir)
    (self.start_candidate E P wc dir lvl reverse search_dir) wc.best_
    (by simp [lookup.start_candidate])
  obtain ⟨log, h1, h2, h3, _, _⟩ := walk_recording _ _ _ _ [] hwalk
  have hside : (self.side wc dir).length ≤ n := by
    rw [← hlen]
    unfold lookup.side walk_order
    split
    · simp only [List.length_drop]; omega
    · simp only [List.length_reverse, List.length_take]; omega
  have hsub : ∀ v ∈ self.side wc dir, v ∈ self.vertices wc := by
    intro v hv
    unfold lookup.side walk_order at hv
    split at hv
    · exact List.mem_of_mem_drop hv
    · exact List.mem_of_mem_take (List.mem_reverse.mp hv)
  refine ⟨self.walked E P (self.ways_.way_properties_ wc.way_)
    (effective_dir E dir reverse search_dir) blocked lng
    (self.start_candidate E P wc dir lvl reverse search_dir) wc.best_ (self.side wc dir),
    log, ?_, le_trans h3 hside, h2, ?_, ?_⟩
  · have := till_the_end_eq_walk (wc.segment_idx_ + (if dir = direction.kForward then 1 else 0))
      (self.vertices wc) dir
      (recording (self.find_next_node_visit E P (self.ways_.way_properties_ wc.way_)
        search_dir (if reverse = true then E.opposite dir else dir) blocked lng))
      (self.start_candidate E P wc dir lvl reverse search_dir, []) hstart
    unfold lookup.vertices at this
    have hwrap : dir = direction.kBackward →
        wc.segment_idx_ + (if dir = direction.kForward then 1 else 0) + 1 < 2 ^ 32 := by
      intro hd
      subst hd
      simp only [reduceCtorEq, if_false]
      omega
    rw [till_the_end_u32_eq _ _ _ _ _ hwrap, this]
    simpa using h1
  · intro e he
    have hm : e.1 ∈ log.map Prod.fst := List.mem_map_of_mem _ he
    rw [h2] at hm
    exact hsub _ (List.mem_of_mem_take hm)
  · exact find_next_node_eq self E P wc q dir lvl reverse search_dir blocked lng hfeas hidx

/-- C20: when the squared distances of the segments delivered by the range
search at radius 0 are not negative, `match` with `max_match_distance = 0`
returns the empty list: no squared distance is below `0 ^ 2`, and all five
attempts are made at radius 0. -/
theorem zero_radius (self : lookup R) (E : externals R) (P : profile)
    (query : location R) (reverse : Bool) (search_dir : direction)
    (blocked : Option (node_idx_t → Bool))
    (hnn : ∀ way ∈ self.rtree_search (E.box_around query.pos_ 0),
      0 ≤ (self.projection E query way).1) :
    self.match_ E P query reverse search_dir 0 blocked = some [] ∧
    self.match_calls E P query reverse search_dir 0 blocked = some [0, 0, 0, 0, 0] := by
  have hg : self.get_way_candidates E P query reverse search_dir 0 blocked = some [] := by
    apply get_way_candidates_all_far
    intro way hway
    have h0 : (0 : R) ^ 2 = 0 := by norm_num
    rw [h0]
    exact not_lt.mpr (hnn way hway)
  unfold lookup.match_ lookup.match_calls
  rw [match_run_unfold]
  simp only [zero_mul, hg]
  simp

end

/-- Way 0 of the sample network has four vertices and the sample query the
projection index 1: the backward walk returns a candidate. -/
theorem index_safety_witness :
    (sample_lookup.ways_.way_polylines_
      (sample_lookup.projected sample_externals sample_query 0).way_).length = 4 ∧
    (sample_lookup.ways_.way_osm_nodes_
      (sample_lookup.projected sample_externals sample_query 0).way_).length = 4 ∧
    (sample_lookup.projected sample_externals sample_query 0).segment_idx_ + 2 ≤ 4 ∧
    ∃ c, sample_lookup.find_next_node sample_externals sample_profile
      (sample_lookup.projected sample_externals sample_query 0) sample_query
      direction.kBackward 0 false direction.kForward none 1 = some c :=
  ⟨by decide, by decide, by decide,
   (index_safety sample_lookup sample_externals sample_profile
      (sample_lookup.projected sample_externals sample_query 0) sample_query
      direction.kBackward 0 false direction.kForward none 1 4 (by decide) (by decide)
      (by decide) (by norm_num)).1⟩

/-- A query point on way 0 of the sample network, radius 0: the squared
distance is 0, the range search delivers the way, and `match` returns the
empty list after five attempts at radius 0. -/
theorem zero_radius_witness :
    (0 : way_idx_t) ∈ sample_lookup.rtree_search
      (sample_externals.box_around (⟨0, 12⟩ : latlng ℤ) 0) ∧
    (sample_lookup.projection sample_externals ⟨⟨0, 12⟩, 0⟩ 0).1 = 0 ∧
    sample_lookup.match_ sample_externals sample_profile ⟨⟨0, 12⟩, 0⟩ false
      direction.kForward 0 none = some [] ∧
    sample_lookup.match_calls sample_externals sample_profile ⟨⟨0, 12⟩, 0⟩ false
      direction.kForward 0 none = some [0, 0, 0, 0, 0] :=
  ⟨by decide, by decide,
   (zero_radius sample_lookup sample_externals sample_profile ⟨⟨0, 12⟩, 0⟩ false
      direction.kForward none (by decide)).1,
   (zero_radius sample_lookup sample_externals sample_profile ⟨⟨0, 12⟩, 0⟩ false
      direction.kForward none (by decide)).2⟩

/-- C19, at the failing input: a way with `n` = 4294967297 polyline points and
as many external nodes, none of them a node of the graph, and the projection
index 4294967295 = `n - 2`, walked backward after a feasible initial hop.  The
callback of `find_next_node` has a result on every candidate with a path that
is not empty, it never breaks and leaves the path not empty; the 32-bit counter
of the loop of `till_the_end` wraps after the call on index 0, and the loop has
no result after any number of loop tests, where the claim has it end after at
most `n` calls. -/
theorem index_safety_counter_wraps :
    (long_lookup.ways_.way_polylines_ long_candidate.way_).length = 4294967297 ∧
    (long_lookup.ways_.way_osm_nodes_ long_candidate.way_).length = 4294967297 ∧
    long_candidate.segment_idx_ + 2 ≤ 4294967297 ∧
    long_lookup.offroad_cost sample_externals sample_profile long_candidate
      direction.kBackward false direction.kForward ≠ sample_externals.kInfeasible ∧
    (long_lookup.start_candidate sample_externals sample_profile long_candidate
      direction.kBackward 0 false direction.kForward).path_ ≠ [] ∧
    (∀ c x, c.path_ ≠ [] →
      ∃ c1, long_lookup.find_next_node_visit sample_externals sample_profile
          (long_lookup.ways_.way_properties_ long_candidate.way_) direction.kForward
          direction.kBackward none 1 c x = some (cflow.kContinue, c1) ∧ c1.path_ ≠ []) ∧
    ∀ budget, till_the_end_backward_u32
      (List.zip (long_lookup.ways_.way_polylines_ long_candidate.way_)
        (long_lookup.ways_.way_osm_nodes_ long_candidate.way_))
      (long_lookup.find_next_node_visit sample_externals sample_profile
        (long_lookup.ways_.way_properties_ long_candidate.way_) direction.kForward
        direction.kBackward none 1)
      (long_candidate.segment_idx_ + 0) budget 0
      (long_lookup.start_candidate sample_externals sample_profile long_candidate
        direction.kBackward 0 false direction.kForward) = none := by
  have hvisit : ∀ (c : node_candidate ℤ) (x : latlng ℤ × osm_node_idx_t),
      long_lookup.find_next_node_visit sample_externals sample_profile
          (long_lookup.ways_.way_properties_ long_candidate.way_) direction.kForward
          direction.kBackward none 1 c x = none ∨
      ∃ c1, long_lookup.find_next_node_visit sample_externals sample_profile
          (long_lookup.ways_.way_properties_ long_candidate.way_) direction.kForward
          direction.kBackward none 1 c x = some (cflow.kContinue, c1) ∧ c1.path_ ≠ [] := by
    intro c x
    unfold lookup.find_next_node_visit
    cases hlast : c.path_.getLast? with
    | none => exact Or.inl rfl
    | some back => exact Or.inr ⟨_, rfl, by simp⟩
  refine ⟨List.length_replicate _ _, List.length_replicate _ _, by decide, by decide,
    by decide, ?_, fun budget => ?_⟩
  · intro c x hne
    rcases hvisit c x with h | h
    · exact absurd ((find_next_node_visit_none long_lookup sample_externals sample_profile _ _ _
        _ _ c x).mp h) hne
    · exact h
  · apply till_the_end_backward_u32_never_returns _ _ _ (by decide) ?_ budget 0 _
      (by norm_num)
    intro c x
    rcases hvisit c x with h | ⟨c1, h, _⟩
    · exact Or.inl h
    · exact Or.inr ⟨c1, h⟩

end osr
